import Mathlib

/-!
Verification of the automated performance-test workflow orchestrator.

This file gives a shallow embedding of the pipeline orchestrator implemented in
`app.py` (class `AutomatedWorkflow` plus the `chat` submission route) and proves
properties of it.  Strings are modelled as `List Char` where character-level
reasoning is needed; the Python regular expressions used by the source
(`TASK\s*=\s*""".*?"""` with DOTALL, and `https?://[^\s]+`) are embedded as
explicit scanning functions with Python's leftmost, non-greedy semantics.
-/

namespace Workpipe

/-- Python's `\s` character class (ASCII part), also used by `str.strip`. -/
def isPySpace (c : Char) : Bool :=
  c == ' ' || c == '\t' || c == '\n' || c == '\r' || c == '\x0b' || c == '\x0c'

/-- Length of the maximal leading whitespace run (the greedy `\s*`). -/
def wsCount : List Char → Nat
  | [] => 0
  | c :: r => if isPySpace c then wsCount r + 1 else 0

/-- The three literal characters `TASK` opens with. -/
def tASK : List Char := ['T', 'A', 'S', 'K']

/-- The triple-quote delimiter `"""`. -/
def quote3 : List Char := ['"', '"', '"']

/-- Does the string start with the `"""` delimiter? -/
def tripleAt (s : List Char) : Bool := decide (s.take 3 = quote3)

/-- Index of the first occurrence of `"""` (how the non-greedy `.*?"""` stops). -/
def findTriple : List Char → Option Nat
  | [] => none
  | c :: r => if tripleAt (c :: r) then some 0 else (findTriple r).map (· + 1)

/-- Whether `"""` occurs anywhere in the string. -/
def containsTriple (s : List Char) : Bool := (findTriple s).isSome

/-- Length matched by the opener `TASK\s*=\s*"""` of the task pattern at the
head of `s`, or `none` when it does not match there.  `\s*` is a greedy run
followed by a literal that is never a space, so maximal-run-then-check is
exactly the regex behaviour. -/
def openerLen (s : List Char) : Option Nat :=
  if s.take 4 = tASK then
    let w1 := wsCount (s.drop 4)
    if (s.drop (4 + w1)).take 1 = ['='] then
      let w2 := wsCount (s.drop (4 + w1 + 1))
      if (s.drop (4 + w1 + 1 + w2)).take 3 = quote3 then some (4 + w1 + 1 + w2 + 3)
      else none
    else none
  else none

/-- Length matched by `TASK\s*=\s*""".*?"""` (DOTALL) at the head of `s`:
the opener followed by the shortest body that reaches a closing `"""`. -/
def matchLen (s : List Char) : Option Nat :=
  match openerLen s with
  | some o =>
    match findTriple (s.drop o) with
    | some k => some (o + k + 3)
    | none => none
  | none => none

/-- Does the task pattern match anywhere in `s`?  This is `re.search`. -/
def hasMatch : List Char → Bool
  | [] => false
  | c :: r => (matchLen (c :: r)).isSome || hasMatch r

/-- One left-to-right pass of `re.sub`: at skip distance `0`, try the pattern at
the current position; on a match emit the replacement `T` and skip the matched
text, otherwise copy one character. -/
def subAux (T : List Char) : List Char → Nat → List Char
  | [], _ => []
  | _ :: rest, Nat.succ k => subAux T rest k
  | c :: rest, 0 =>
    match matchLen (c :: rest) with
    | some n => T ++ subAux T rest (n - 1)
    | none => c :: subAux T rest 0

/-- `re.sub(task_pattern, T, s, flags=re.DOTALL)`: replace every
non-overlapping match of the task pattern by `T`. -/
def pySub (T s : List Char) : List Char := subAux T s 0

/-- The regex `https?://[^\s]+` tried at the head of `s`: on success the match
is the maximal run of non-whitespace characters starting here (the prefix
`http://` or `https://` is itself non-whitespace, `[^\s]+` needs at least one
further character). -/
def urlAt (s : List Char) : Option (List Char) :=
  let run := s.takeWhile (fun c => !isPySpace c)
  if s.take 7 = "http://".data ∧ 8 ≤ run.length then some run
  else if s.take 8 = "https://".data ∧ 9 ≤ run.length then some run
  else none

/-- First (leftmost) match of `https?://[^\s]+` in `s`; this is
`re.findall(...)[0]` when the list is non-empty. -/
def firstUrlScan : List Char → Option (List Char)
  | [] => none
  | c :: r =>
    match urlAt (c :: r) with
    | some u => some u
    | none => firstUrlScan r

/-- `urls[0] if urls else "https://example.com"` on character lists. -/
def urlOrDefaultL (story : List Char) : List Char :=
  match firstUrlScan story with
  | some u => u
  | none => "https://example.com".data

/-- Same, on strings; this is how `execute_workflow` sets `target_url`. -/
def urlOrDefault (story : String) : String := String.mk (urlOrDefaultL story.data)

/-- The replacement block `new_task` built by `update_task_in_log_file`. -/
def newTask (story : List Char) : List Char :=
  "TASK = \"\"\"\nAs a user,\nI want to go to ".data ++ urlOrDefaultL story ++
    ",\n".data ++ story ++ "\nAnd verify the task is completed.\n\"\"\"".data

/-- The body of the replacement block: everything of `newTask` strictly between
the opener `TASK = \"\"\"` and the closing `\"\"\"`. -/
def bodyL (story : List Char) : List Char :=
  "\nAs a user,\nI want to go to ".data ++ urlOrDefaultL story ++
    ",\n".data ++ story ++ "\nAnd verify the task is completed.\n".data

/-- `content.split('\n')`. -/
def splitNl : List Char → List (List Char)
  | [] => [[]]
  | c :: r =>
    if c = '\n' then [] :: splitNl r
    else
      match splitNl r with
      | [] => [[c]]
      | l :: ls => (c :: l) :: ls

/-- `'\n'.join(lines)`. -/
def joinNl : List (List Char) → List Char
  | [] => []
  | [l] => l
  | l :: l' :: ls => l ++ '\n' :: joinNl (l' :: ls)

/-- `line.startswith('import ') or line.startswith('from ')`. -/
def startsImportLine (l : List Char) : Bool :=
  decide (l.take 7 = "import ".data) || decide (l.take 5 = "from ".data)

/-- The loop computing `insert_index`: one past the last import/from line. -/
def insertIdxGo : List (List Char) → Nat → Nat → Nat
  | [], _, acc => acc
  | l :: rest, i, acc => insertIdxGo rest (i + 1) (if startsImportLine l then i + 1 else acc)

/-- `insert_index` for a list of lines. -/
def taskInsertIdx (ls : List (List Char)) : Nat := insertIdxGo ls 0 0

/-- `lines.insert(i, a)` (Python clamps an index past the end to an append). -/
def listInsertAt (xs : List (List Char)) (i : Nat) (a : List Char) : List (List Char) :=
  xs.take i ++ a :: xs.drop i

/-- The content transformation of `update_task_in_log_file`: replace every
match of the task pattern by the new block when one exists, otherwise insert
the new block (wrapped in blank lines) after the leading import section. -/
def updateTaskL (story content : List Char) : List Char :=
  let T := newTask story
  if hasMatch content then pySub T content
  else
    let lines := splitNl content
    joinNl (listInsertAt lines (taskInsertIdx lines) ('\n' :: (T ++ ['\n'])))

/-- `update_task_in_log_file` on strings. -/
def updateTaskStr (story content : String) : String :=
  String.mk (updateTaskL story.data content.data)

/-! ## The workflow data model -/

/-- Per-step status strings of `AutomatedWorkflow.steps`. -/
inductive StepStatus
  | pending
  | running
  | completed
  | failed
deriving DecidableEq, Repr

/-- Workflow-level status strings. -/
inductive WStatus
  | initializing
  | running
  | completed
  | failed
deriving DecidableEq, Repr

/-- The step/progress messages built by `execute_workflow`; each constructor is
one of the f-strings of the source, carrying its dynamic parts. -/
inductive Msg
  | empty
  | analyzing
  | planningComplete (url story : String)
  | networkModuleMissing
  | networkRunning
  | taskUpdateFailed
  | networkFailed (stderr : String)
  | networkComplete (url : String)
  | tsModuleMissing
  | tsRunning
  | tsFailed (stderr : String)
  | tsComplete (outputFiles : List String)
  | jmxModuleMissing
  | jmxRunning
  | jmxFailed (stderr : String)
  | jmxComplete (jmxFiles : List String)
  | valModuleMissing
  | valRunning
  | noJmxFound
  | validationFailed (err : String)
  | validationComplete (passed warnings failed : Nat)
deriving DecidableEq, Repr

/-- The dictionary returned by `run_script_with_timeout`. -/
structure StageResult where
  success : Bool
  returncode : Int
  stdout : String
  stderr : String
deriving DecidableEq, Repr

/-- Outcome of attempting to run a child process: normal exit with a code and
captured streams, a timeout (`subprocess.TimeoutExpired`), or any other
launch-level exception with its text. -/
inductive ProcOutcome
  | exited (code : Int) (out err : String)
  | timedOut
  | launchError (msg : String)
deriving DecidableEq, Repr

/-- `run_script_with_timeout`: build the result dictionary from the process
outcome.  `success` is `returncode == 0`; timeout and launch failure both give
`returncode = -1` with the explanatory text in `stderr`. -/
def runScriptWithTimeout (o : ProcOutcome) (timeout : Nat) : StageResult :=
  match o with
  | .exited c out err => ⟨decide (c = 0), c, out, err⟩
  | .timedOut =>
    ⟨false, -1, "", "Script execution timed out after " ++ toString timeout ++ " seconds"⟩
  | .launchError m => ⟨false, -1, "", m⟩

/-- The debug payload stored under `results['teststeps_debug']`. -/
structure TSDebug where
  working_directory : String
  output_directory_exists : Bool
  expected_files : List String
  found_files : List String
  actual_directory_contents : List String
deriving DecidableEq, Repr

/-- Values stored in the `results` mapping. -/
inductive RVal
  | proc (r : StageResult)
  | files (fs : List String)
  | debug (d : TSDebug)
  | validation (vrs : List (String × String))
deriving DecidableEq, Repr

/-- One pipeline step record. -/
structure Step where
  name : String
  status : StepStatus
  message : Msg
deriving DecidableEq, Repr

/-- The workflow object. -/
structure Workflow where
  workflow_id : String
  user_story : String
  status : WStatus
  current_step : Int
  steps : List Step
  results : List (String × RVal)
  target_url : Option String
deriving DecidableEq, Repr

/-- The five freshly created steps. -/
def initSteps : List Step :=
  [⟨"🤖 AI Planner Analysis", .pending, .empty⟩,
   ⟨"🌐 Network Logging", .pending, .empty⟩,
   ⟨"⚙️ Test Steps Generation", .pending, .empty⟩,
   ⟨"🎯 JMX Script Creation", .pending, .empty⟩,
   ⟨"🔍 JMX Validation", .pending, .empty⟩]

/-- `AutomatedWorkflow.__init__`. -/
def mkWorkflow (wfId story : String) : Workflow :=
  ⟨wfId, story, .initializing, 0, initSteps, [], none⟩

/-- Overwrite status and message of the step at a given position. -/
def setStep : List Step → Nat → StepStatus → Msg → List Step
  | [], _, _, _ => []
  | s :: rest, 0, st, m => ⟨s.name, st, m⟩ :: rest
  | s :: rest, n + 1, st, m => s :: setStep rest n st m

/-- `update_step_status`: guarded by `0 <= step_index < len(self.steps)`; in
range it overwrites the step's status and message and records the index in
`current_step`, otherwise it does nothing. -/
def update_step_status (w : Workflow) (i : Int) (st : StepStatus) (m : Msg) : Workflow :=
  if 0 ≤ i ∧ i < (w.steps.length : Int) then
    { w with steps := setStep w.steps i.toNat st m, current_step := i }
  else w

/-- Atomic state changes performed by `execute_workflow`, in program order.
`valCall f` marks an invocation of the external validator's per-file check; it
does not change the workflow state. -/
inductive Ev
  | setStatus (s : WStatus)
  | upd (i : Int) (st : StepStatus) (m : Msg)
  | setUrl (u : String)
  | record (key : String) (v : RVal)
  | valCall (file : String)
deriving DecidableEq, Repr

/-- Apply one event to the workflow state. -/
def applyEv (w : Workflow) : Ev → Workflow
  | .setStatus s => { w with status := s }
  | .upd i st m => update_step_status w i st m
  | .setUrl u => { w with target_url := some u }
  | .record k v => { w with results := w.results ++ [(k, v)] }
  | .valCall _ => w

/-- Apply a list of events in order. -/
def applyEvents (w : Workflow) (evs : List Ev) : Workflow := evs.foldl applyEv w

/-- The environment a single execution of `execute_workflow` runs against:
module availability, the outcome of the task-file rewrite, the outcomes of the
three stage subprocesses, the state of the output directories, and the
behaviour of the validator collaborator (`Except.error` models a raised
exception). -/
structure Env where
  network_logger_module : Bool
  test_steps_module : Bool
  jmx_generator_module : Bool
  validation_module : Bool
  validator_ok : Bool
  update_task_ok : Bool
  logOutcome : ProcOutcome
  tsOutcome : ProcOutcome
  ptOutcome : ProcOutcome
  cwd : String
  fileExists : String → Bool
  tsDirExists : Bool
  tsWalk : List String
  jmxDirExists : Bool
  jmxWalk : List String
  validateFile : String → Except String String
  genReport : String → Except String Unit

/-- The four expected step-derivation output files. -/
def expectedFiles : List String :=
  ["TestSteps_Output/test_steps_structured.json",
   "TestSteps_Output/test_steps_simple.json",
   "TestSteps_Output/TestSteps.txt",
   "TestSteps_Output/correlation_rules.json"]

/-- The incremental `if file_path not in output_files: output_files.append(...)`
loop over the walked files. -/
def addNew : List String → List String → List String
  | acc, [] => acc
  | acc, f :: rest => if f ∈ acc then addNew acc rest else addNew (acc ++ [f]) rest

/-- `file.endswith('.jmx')`. -/
def endsWithJmx (f : String) : Bool := decide (f.data.reverse.take 4 = ['x', 'm', 'j', '.'])

/-- The expected-plus-walked script files found after the step-derivation
stage. -/
def tsOutputFiles (env : Env) : List String :=
  let base := expectedFiles.filter env.fileExists
  if env.tsDirExists then addNew base env.tsWalk else base

/-- The `.jmx` files discovered under `JMX_SCRIPT_OUTPUT` after stage 4. -/
def jmxFilesOf (env : Env) : List String :=
  if env.jmxDirExists then env.jmxWalk.filter endsWithJmx else []

/-- The per-file validation loop: for each artifact call the validator's check
(`valCall` event), then persist a report; an exception from either call aborts
the whole loop with that error, otherwise the (file, overall_status) pairs are
accumulated in order. -/
def valLoop (validate : String → Except String String) (report : String → Except String Unit) :
    List String → List Ev × Except String (List (String × String))
  | [] => ([], .ok [])
  | f :: rest =>
    match validate f with
    | .error e => ([.valCall f], .error e)
    | .ok st =>
      match report f with
      | .error e => ([.valCall f], .error e)
      | .ok _ =>
        let p := valLoop validate report rest
        (.valCall f :: p.1, p.2.map (fun l => (f, st) :: l))

/-- The events after stage 1, parameterised by the already-computed target
URL; mirrors `execute_workflow` line by line from the `network_logger_module`
check onward. -/
def laterEvents (env : Env) (url : String) : List Ev :=
  if env.network_logger_module = false then
    [.upd 1 .failed .networkModuleMissing, .setStatus .failed]
  else
    [.upd 1 .running .networkRunning] ++
    if env.update_task_ok = false then
      [.upd 1 .failed .taskUpdateFailed, .setStatus .failed]
    else
      let r1 := runScriptWithTimeout env.logOutcome 300
      if r1.success = false then
        [.upd 1 .failed (.networkFailed r1.stderr), .setStatus .failed]
      else
        [.upd 1 .completed (.networkComplete url), .record "network_logging" (.proc r1)] ++
        if env.test_steps_module = false then
          [.upd 2 .failed .tsModuleMissing, .setStatus .failed]
        else
          [.upd 2 .running .tsRunning] ++
          let r2 := runScriptWithTimeout env.tsOutcome 120
          if r2.success = false then
            [.upd 2 .failed (.tsFailed r2.stderr), .setStatus .failed]
          else
            let outFiles := tsOutputFiles env
            let dbg : TSDebug :=
              ⟨env.cwd, env.tsDirExists, expectedFiles, outFiles,
                if env.tsDirExists then env.tsWalk else []⟩
            [.upd 2 .completed (.tsComplete outFiles), .record "test_steps" (.proc r2),
             .record "output_files" (.files outFiles), .record "teststeps_debug" (.debug dbg)] ++
            if env.jmx_generator_module = false then
              [.upd 3 .failed .jmxModuleMissing, .setStatus .failed]
            else
              [.upd 3 .running .jmxRunning] ++
              let r3 := runScriptWithTimeout env.ptOutcome 180
              if r3.success = false then
                [.upd 3 .failed (.jmxFailed r3.stderr), .setStatus .failed]
              else
                let jmx := jmxFilesOf env
                [.upd 3 .completed (.jmxComplete jmx), .record "jmx_generation" (.proc r3),
                 .record "jmx_files" (.files jmx)] ++
                if (env.validation_module && env.validator_ok) = false then
                  [.upd 4 .failed .valModuleMissing, .setStatus .failed]
                else
                  [.upd 4 .running .valRunning] ++
                  if jmx.isEmpty then
                    [.upd 4 .failed .noJmxFound, .setStatus .failed]
                  else
                    let p := valLoop env.validateFile env.genReport jmx
                    p.1 ++
                    match p.2 with
                    | .error e => [.upd 4 .failed (.validationFailed e), .setStatus .failed]
                    | .ok vrs =>
                      [.upd 4 .completed
                        (.validationComplete (vrs.countP (fun v => v.2 == "pass"))
                          (vrs.countP (fun v => v.2 == "warning"))
                          (vrs.countP (fun v => v.2 == "fail"))),
                       .record "validation" (.validation vrs), .setStatus .completed]

/-- The full event trace of `execute_workflow`: mark the workflow running, run
the stage-1 analysis (which always completes, setting `target_url`), then the
remaining stages. -/
def execEvents (env : Env) (story : String) : List Ev :=
  let url := urlOrDefault story
  [.setStatus .running, .upd 0 .running .analyzing, .setUrl url,
   .upd 0 .completed (.planningComplete url story)] ++ laterEvents env url

/-- `execute_workflow` run to completion on a freshly created workflow. -/
def executeWorkflow (env : Env) (wfId story : String) : Workflow :=
  applyEvents (mkWorkflow wfId story) (execEvents env story)

/-- Status of the step at position `k`, if any. -/
def statusAt (w : Workflow) (k : Nat) : Option StepStatus :=
  (w.steps.get? k).map Step.status

/-- The status vector of a workflow's steps. -/
def stepStatuses (w : Workflow) : List StepStatus := w.steps.map Step.status

/-- Message of the step at position `k`, if any. -/
def msgAt (w : Workflow) (k : Nat) : Option Msg := (w.steps.get? k).map Step.message

/-- First value stored under a key in the results mapping. -/
def lookupKey (k : String) : List (String × RVal) → Option RVal
  | [] => none
  | p :: rest => if p.1 = k then some p.2 else lookupKey k rest

/-- Which stage records a given results key (stage 1 = network logging, ...,
stage 4 = validation). -/
def stageOfKey (k : String) : Nat :=
  if k = "network_logging" then 1
  else if k = "test_steps" ∨ k = "output_files" ∨ k = "teststeps_debug" then 2
  else if k = "jmx_generation" ∨ k = "jmx_files" then 3
  else 4

/-! ## Status-trace checkers

The C2 claims quantify over every intermediate state of an execution.  The
functions below project the event trace onto step-status vectors and check,
executably, the invariant and the per-step transition discipline at every
point of the trace. -/

/-- Overwrite the status at a position of a status vector. -/
def setStat : List StepStatus → Nat → StepStatus → List StepStatus
  | [], _, _ => []
  | _ :: rest, 0, st => st :: rest
  | s :: rest, n + 1, st => s :: setStat rest n st

/-- The effect of one event on the status vector (mirrors `applyEv`). -/
def applyStat (ss : List StepStatus) : Ev → List StepStatus
  | .upd i st _ => if 0 ≤ i ∧ i < (ss.length : Int) then setStat ss i.toNat st else ss
  | _ => ss

/-- Is a status terminal (completed or failed)? -/
def isTerminal (s : StepStatus) : Bool := s == .completed || s == .failed

/-- `invAux prevTerm ss` holds when every `running` entry of `ss` is preceded
(within the whole vector) only by terminal entries; `prevTerm` says whether
everything before `ss` was terminal. -/
def invAux : Bool → List StepStatus → Bool
  | _, [] => true
  | prevTerm, s :: rest =>
    (if s == StepStatus.running then prevTerm else true) &&
    invAux (prevTerm && isTerminal s) rest

/-- The instant invariant: at most one step is `running`, and a running step is
the lowest-indexed step whose status is neither completed nor failed. -/
def invOk (ss : List StepStatus) : Bool :=
  decide (ss.countP (· == StepStatus.running) ≤ 1) && invAux true ss

/-- Legal single-step status transitions as the specification states them:
`pending → running → (completed | failed)`, terminal states frozen (staying
put is always legal, since most events leave a given step unchanged). -/
def okStepS : StepStatus → StepStatus → Bool
  | .pending, .pending => true
  | .pending, .running => true
  | .running, .running => true
  | .running, .completed => true
  | .running, .failed => true
  | .completed, .completed => true
  | .failed, .failed => true
  | _, _ => false

/-- Legal transitions as the code actually performs them: additionally a step
may pass directly from `pending` to `failed` (the module/validator
availability checks fail a step without ever marking it running). -/
def okStepA : StepStatus → StepStatus → Bool
  | .pending, .failed => true
  | a, b => okStepS a b

/-- Pointwise transition check between two status vectors of equal length. -/
def okPairWith (f : StepStatus → StepStatus → Bool) : List StepStatus → List StepStatus → Bool
  | [], [] => true
  | a :: ra, b :: rb => f a b && okPairWith f ra rb
  | _, _ => false

/-- Run the trace from a status vector, checking the invariant at every state
and the transition discipline `f` across every event. -/
def chkWith (f : StepStatus → StepStatus → Bool) : List StepStatus → List Ev → Bool
  | ss, [] => invOk ss
  | ss, e :: rest =>
    invOk ss && okPairWith f ss (applyStat ss e) && chkWith f (applyStat ss e) rest

/-- The five initial `pending` statuses. -/
def initStatuses : List StepStatus := [.pending, .pending, .pending, .pending, .pending]

/-! ## The submission route (`chat`) -/

/-- Python `str.strip()` (whitespace from both ends). -/
def pyStrip (s : String) : String :=
  String.mk (((s.data.dropWhile isPySpace).reverse.dropWhile isPySpace).reverse)

/-- Python `str.lower()`. -/
def pyLower (s : String) : String := String.mk (s.data.map Char.toLower)

/-- The reply categories of the `chat` route. -/
inductive ChatResp
  | errorEmpty
  | resetDone
  | inProgress
  | modulesMissing
  | needUrl
  | started (wfId : String)
deriving DecidableEq, Repr

/-- `user_input.lower() in ['reset', 'new test', 'start over']`. -/
def isResetCommand (input : String) : Bool :=
  pyLower input == "reset" || pyLower input == "new test" || pyLower input == "start over"

/-- Status lookup in the workflow registry (`active_workflows`). -/
def lookupStatus (wid : String) : List (String × WStatus) → Option WStatus
  | [] => none
  | p :: rest => if p.1 = wid then some p.2 else lookupStatus wid rest

/-- The guard `current_workflow_id and current_workflow_id in active_workflows`
followed by `workflow.status in ['running', 'initializing']`. -/
def sessionBusy (sessionWf : Option String) (registry : List (String × WStatus)) : Bool :=
  match sessionWf with
  | none => false
  | some wid =>
    if wid = "" then false
    else
      match lookupStatus wid registry with
      | some st => st == WStatus.running || st == WStatus.initializing
      | none => false

/-- The `chat` route: strip the input, reject empty input, honour reset
commands, refuse while a session workflow is in progress, refuse when modules
are missing, demand a URL when none is found, and otherwise register a new
workflow (created in status `initializing`).  Returns the reply and the
registry afterwards. -/
def chatStep (modulesAvailable : Bool) (sessionWf : Option String)
    (registry : List (String × WStatus)) (newId : String) (rawInput : String) :
    ChatResp × List (String × WStatus) :=
  let input := pyStrip rawInput
  if input = "" then (.errorEmpty, registry)
  else if isResetCommand input then (.resetDone, registry)
  else if sessionBusy sessionWf registry then (.inProgress, registry)
  else if modulesAvailable = false then (.modulesMissing, registry)
  else if (firstUrlScan input.data).isNone then (.needUrl, registry)
  else (.started newId, registry ++ [(newId, .initializing)])

/-! ## Branch evaluation lemmas for `laterEvents` -/

theorem laterEvents_noNet (env : Env) (url : String)
    (hnet : env.network_logger_module = false) :
    laterEvents env url = [.upd 1 .failed .networkModuleMissing, .setStatus .failed] := by
  simp [laterEvents, hnet]

theorem laterEvents_noUpd (env : Env) (url : String)
    (hnet : env.network_logger_module = true) (huok : env.update_task_ok = false) :
    laterEvents env url =
      [.upd 1 .running .networkRunning, .upd 1 .failed .taskUpdateFailed, .setStatus .failed] := by
  simp [laterEvents, hnet, huok]

theorem laterEvents_logFail (env : Env) (url : String)
    (hnet : env.network_logger_module = true) (huok : env.update_task_ok = true)
    (hlog : (runScriptWithTimeout env.logOutcome 300).success = false) :
    laterEvents env url =
      [.upd 1 .running .networkRunning,
       .upd 1 .failed (.networkFailed (runScriptWithTimeout env.logOutcome 300).stderr),
       .setStatus .failed] := by
  simp [laterEvents, hnet, huok, hlog]

theorem laterEvents_noTsm (env : Env) (url : String)
    (hnet : env.network_logger_module = true) (huok : env.update_task_ok = true)
    (hlog : (runScriptWithTimeout env.logOutcome 300).success = true)
    (htsm : env.test_steps_module = false) :
    laterEvents env url =
      [.upd 1 .running .networkRunning, .upd 1 .completed (.networkComplete url),
       .record "network_logging" (.proc (runScriptWithTimeout env.logOutcome 300)),
       .upd 2 .failed .tsModuleMissing, .setStatus .failed] := by
  simp [laterEvents, hnet, huok, hlog, htsm]

theorem laterEvents_tsFail (env : Env) (url : String)
    (hnet : env.network_logger_module = true) (huok : env.update_task_ok = true)
    (hlog : (runScriptWithTimeout env.logOutcome 300).success = true)
    (htsm : env.test_steps_module = true)
    (hts : (runScriptWithTimeout env.tsOutcome 120).success = false) :
    laterEvents env url =
      [.upd 1 .running .networkRunning, .upd 1 .completed (.networkComplete url),
       .record "network_logging" (.proc (runScriptWithTimeout env.logOutcome 300)),
       .upd 2 .running .tsRunning,
       .upd 2 .failed (.tsFailed (runScriptWithTimeout env.tsOutcome 120).stderr),
       .setStatus .failed] := by
  simp [laterEvents, hnet, huok, hlog, htsm, hts]

theorem laterEvents_noJm (env : Env) (url : String)
    (hnet : env.network_logger_module = true) (huok : env.update_task_ok = true)
    (hlog : (runScriptWithTimeout env.logOutcome 300).success = true)
    (htsm : env.test_steps_module = true)
    (hts : (runScriptWithTimeout env.tsOutcome 120).success = true)
    (hjm : env.jmx_generator_module = false) :
    laterEvents env url =
      [.upd 1 .running .networkRunning, .upd 1 .completed (.networkComplete url),
       .record "network_logging" (.proc (runScriptWithTimeout env.logOutcome 300)),
       .upd 2 .running .tsRunning, .upd 2 .completed (.tsComplete (tsOutputFiles env)),
       .record "test_steps" (.proc (runScriptWithTimeout env.tsOutcome 120)),
       .record "output_files" (.files (tsOutputFiles env)),
       .record "teststeps_debug" (.debug ⟨env.cwd, env.tsDirExists, expectedFiles,
         tsOutputFiles env, if env.tsDirExists then env.tsWalk else []⟩),
       .upd 3 .failed .jmxModuleMissing, .setStatus .failed] := by
  simp [laterEvents, hnet, huok, hlog, htsm, hts, hjm]

theorem laterEvents_ptFail (env : Env) (url : String)
    (hnet : env.network_logger_module = true) (huok : env.update_task_ok = true)
    (hlog : (runScriptWithTimeout env.logOutcome 300).success = true)
    (htsm : env.test_steps_module = true)
    (hts : (runScriptWithTimeout env.tsOutcome 120).success = true)
    (hjm : env.jmx_generator_module = true)
    (hpt : (runScriptWithTimeout env.ptOutcome 180).success = false) :
    laterEvents env url =
      [.upd 1 .running .networkRunning, .upd 1 .completed (.networkComplete url),
       .record "network_logging" (.proc (runScriptWithTimeout env.logOutcome 300)),
       .upd 2 .running .tsRunning, .upd 2 .completed (.tsComplete (tsOutputFiles env)),
       .record "test_steps" (.proc (runScriptWithTimeout env.tsOutcome 120)),
       .record "output_files" (.files (tsOutputFiles env)),
       .record "teststeps_debug" (.debug ⟨env.cwd, env.tsDirExists, expectedFiles,
         tsOutputFiles env, if env.tsDirExists then env.tsWalk else []⟩),
       .upd 3 .running .jmxRunning,
       .upd 3 .failed (.jmxFailed (runScriptWithTimeout env.ptOutcome 180).stderr),
       .setStatus .failed] := by
  simp [laterEvents, hnet, huok, hlog, htsm, hts, hjm, hpt]

theorem laterEvents_noVal (env : Env) (url : String)
    (hnet : env.network_logger_module = true) (huok : env.update_task_ok = true)
    (hlog : (runScriptWithTimeout env.logOutcome 300).success = true)
    (htsm : env.test_steps_module = true)
    (hts : (runScriptWithTimeout env.tsOutcome 120).success = true)
    (hjm : env.jmx_generator_module = true)
    (hpt : (runScriptWithTimeout env.ptOutcome 180).success = true)
    (hvv : (env.validation_module && env.validator_ok) = false) :
    laterEvents env url =
      [.upd 1 .running .networkRunning, .upd 1 .completed (.networkComplete url),
       .record "network_logging" (.proc (runScriptWithTimeout env.logOutcome 300)),
       .upd 2 .running .tsRunning, .upd 2 .completed (.tsComplete (tsOutputFiles env)),
       .record "test_steps" (.proc (runScriptWithTimeout env.tsOutcome 120)),
       .record "output_files" (.files (tsOutputFiles env)),
       .record "teststeps_debug" (.debug ⟨env.cwd, env.tsDirExists, expectedFiles,
         tsOutputFiles env, if env.tsDirExists then env.tsWalk else []⟩),
       .upd 3 .running .jmxRunning, .upd 3 .completed (.jmxComplete (jmxFilesOf env)),
       .record "jmx_generation" (.proc (runScriptWithTimeout env.ptOutcome 180)),
       .record "jmx_files" (.files (jmxFilesOf env)),
       .upd 4 .failed .valModuleMissing, .setStatus .failed] := by
  simp [laterEvents, hnet, huok, hlog, htsm, hts, hjm, hpt, hvv]

theorem laterEvents_noJmx (env : Env) (url : String)
    (hnet : env.network_logger_module = true) (huok : env.update_task_ok = true)
    (hlog : (runScriptWithTimeout env.logOutcome 300).success = true)
    (htsm : env.test_steps_module = true)
    (hts : (runScriptWithTimeout env.tsOutcome 120).success = true)
    (hjm : env.jmx_generator_module = true)
    (hpt : (runScriptWithTimeout env.ptOutcome 180).success = true)
    (hvv : (env.validation_module && env.validator_ok) = true)
    (hjmx : (jmxFilesOf env).isEmpty = true) :
    laterEvents env url =
      [.upd 1 .running .networkRunning, .upd 1 .completed (.networkComplete url),
       .record "network_logging" (.proc (runScriptWithTimeout env.logOutcome 300)),
       .upd 2 .running .tsRunning, .upd 2 .completed (.tsComplete (tsOutputFiles env)),
       .record "test_steps" (.proc (runScriptWithTimeout env.tsOutcome 120)),
       .record "output_files" (.files (tsOutputFiles env)),
       .record "teststeps_debug" (.debug ⟨env.cwd, env.tsDirExists, expectedFiles,
         tsOutputFiles env, if env.tsDirExists then env.tsWalk else []⟩),
       .upd 3 .running .jmxRunning, .upd 3 .completed (.jmxComplete (jmxFilesOf env)),
       .record "jmx_generation" (.proc (runScriptWithTimeout env.ptOutcome 180)),
       .record "jmx_files" (.files (jmxFilesOf env)),
       .upd 4 .running .valRunning, .upd 4 .failed .noJmxFound, .setStatus .failed] := by
  simp [laterEvents, hnet, huok, hlog, htsm, hts, hjm, hpt, hvv, hjmx]

theorem laterEvents_valErr (env : Env) (url : String) (vevs : List Ev) (er : String)
    (hnet : env.network_logger_module = true) (huok : env.update_task_ok = true)
    (hlog : (runScriptWithTimeout env.logOutcome 300).success = true)
    (htsm : env.test_steps_module = true)
    (hts : (runScriptWithTimeout env.tsOutcome 120).success = true)
    (hjm : env.jmx_generator_module = true)
    (hpt : (runScriptWithTimeout env.ptOutcome 180).success = true)
    (hvv : (env.validation_module && env.validator_ok) = true)
    (hjmx : (jmxFilesOf env).isEmpty = false)
    (hvl : valLoop env.validateFile env.genReport (jmxFilesOf env) = (vevs, .error er)) :
    laterEvents env url =
      [.upd 1 .running .networkRunning, .upd 1 .completed (.networkComplete url),
       .record "network_logging" (.proc (runScriptWithTimeout env.logOutcome 300)),
       .upd 2 .running .tsRunning, .upd 2 .completed (.tsComplete (tsOutputFiles env)),
       .record "test_steps" (.proc (runScriptWithTimeout env.tsOutcome 120)),
       .record "output_files" (.files (tsOutputFiles env)),
       .record "teststeps_debug" (.debug ⟨env.cwd, env.tsDirExists, expectedFiles,
         tsOutputFiles env, if env.tsDirExists then env.tsWalk else []⟩),
       .upd 3 .running .jmxRunning, .upd 3 .completed (.jmxComplete (jmxFilesOf env)),
       .record "jmx_generation" (.proc (runScriptWithTimeout env.ptOutcome 180)),
       .record "jmx_files" (.files (jmxFilesOf env)),
       .upd 4 .running .valRunning] ++ vevs ++
      [.upd 4 .failed (.validationFailed er), .setStatus .failed] := by
  simp [laterEvents, hnet, huok, hlog, htsm, hts, hjm, hpt, hvv, hjmx, hvl]

theorem laterEvents_valOk (env : Env) (url : String) (vevs : List Ev)
    (vrs : List (String × String))
    (hnet : env.network_logger_module = true) (huok : env.update_task_ok = true)
    (hlog : (runScriptWithTimeout env.logOutcome 300).success = true)
    (htsm : env.test_steps_module = true)
    (hts : (runScriptWithTimeout env.tsOutcome 120).success = true)
    (hjm : env.jmx_generator_module = true)
    (hpt : (runScriptWithTimeout env.ptOutcome 180).success = true)
    (hvv : (env.validation_module && env.validator_ok) = true)
    (hjmx : (jmxFilesOf env).isEmpty = false)
    (hvl : valLoop env.validateFile env.genReport (jmxFilesOf env) = (vevs, .ok vrs)) :
    laterEvents env url =
      [.upd 1 .running .networkRunning, .upd 1 .completed (.networkComplete url),
       .record "network_logging" (.proc (runScriptWithTimeout env.logOutcome 300)),
       .upd 2 .running .tsRunning, .upd 2 .completed (.tsComplete (tsOutputFiles env)),
       .record "test_steps" (.proc (runScriptWithTimeout env.tsOutcome 120)),
       .record "output_files" (.files (tsOutputFiles env)),
       .record "teststeps_debug" (.debug ⟨env.cwd, env.tsDirExists, expectedFiles,
         tsOutputFiles env, if env.tsDirExists then env.tsWalk else []⟩),
       .upd 3 .running .jmxRunning, .upd 3 .completed (.jmxComplete (jmxFilesOf env)),
       .record "jmx_generation" (.proc (runScriptWithTimeout env.ptOutcome 180)),
       .record "jmx_files" (.files (jmxFilesOf env)),
       .upd 4 .running .valRunning] ++ vevs ++
      [.upd 4 .completed
         (.validationComplete (vrs.countP (fun v => v.2 == "pass"))
           (vrs.countP (fun v => v.2 == "warning")) (vrs.countP (fun v => v.2 == "fail"))),
       .record "validation" (.validation vrs), .setStatus .completed] := by
  simp [laterEvents, hnet, huok, hlog, htsm, hts, hjm, hpt, hvv, hjmx, hvl]

/-! ## Event-fold helpers -/

theorem valLoop_events (validate : String → Except String String)
    (report : String → Except String Unit) :
    ∀ fs, ∀ e ∈ (valLoop validate report fs).1, ∃ f, e = Ev.valCall f := by
  intro fs
  induction fs with
  | nil => simp [valLoop]
  | cons f rest ih =>
    intro e he
    simp only [valLoop] at he
    cases hv : validate f with
    | error er => rw [hv] at he; simp at he; exact ⟨f, he⟩
    | ok st =>
      cases hr : report f with
      | error er => rw [hv, hr] at he; simp at he; exact ⟨f, he⟩
      | ok u =>
        rw [hv, hr] at he; simp at he
        rcases he with he | he
        · exact ⟨f, he⟩
        · exact ih e he

theorem applyEvents_append (w : Workflow) (a b : List Ev) :
    applyEvents w (a ++ b) = applyEvents (applyEvents w a) b :=
  List.foldl_append _ _ _ _

theorem applyEvents_of_valCalls (evs : List Ev) (h : ∀ e ∈ evs, ∃ f, e = Ev.valCall f) :
    ∀ w, applyEvents w evs = w := by
  induction evs with
  | nil => intro w; rfl
  | cons e rest ih =>
    intro w
    obtain ⟨f, rfl⟩ := h e (by simp)
    have : applyEvents w (Ev.valCall f :: rest) = applyEvents w rest := rfl
    rw [this]
    exact ih (fun e he => h e (by simp [he])) w

theorem statusAt_eq (w : Workflow) (k : Nat) :
    statusAt w k = (stepStatuses w).get? k := by
  simp [statusAt, stepStatuses, List.get?_map]

/-- If `k` is the first index carrying `failed` and `m` also carries `failed`
with nothing failed before it, the two indices agree. -/
theorem first_failed_eq {w : Workflow} {k m : Nat}
    (h1 : statusAt w k = some .failed) (h2 : ∀ j, j < k → statusAt w j ≠ some .failed)
    (hm : statusAt w m = some .failed) (hb : ∀ j, j < m → statusAt w j ≠ some .failed) :
    k = m := by
  rcases lt_trichotomy k m with h | h | h
  · exact absurd h1 (hb k h)
  · exact h
  · exact absurd hm (h2 m h)

theorem applyEvents_skip_valCalls (vevs : List Ev)
    (h : ∀ e ∈ vevs, ∃ f, e = Ev.valCall f) (w : Workflow) :
    applyEvents w vevs = w :=
  applyEvents_of_valCalls vevs h w

/-! Small-step evaluation lemmas so that event folds normalise by `simp`. -/

@[simp] theorem applyEvents_nil (w : Workflow) : applyEvents w [] = w := rfl

@[simp] theorem applyEvents_cons (w : Workflow) (e : Ev) (evs : List Ev) :
    applyEvents w (e :: evs) = applyEvents (applyEv w e) evs := rfl

@[simp] theorem applyEv_setStatus (a b : String) (c : WStatus) (d : Int) (e : List Step)
    (f : List (String × RVal)) (g : Option String) (s : WStatus) :
    applyEv ⟨a, b, c, d, e, f, g⟩ (.setStatus s) = ⟨a, b, s, d, e, f, g⟩ := rfl

@[simp] theorem applyEv_setUrl (a b : String) (c : WStatus) (d : Int) (e : List Step)
    (f : List (String × RVal)) (g : Option String) (u : String) :
    applyEv ⟨a, b, c, d, e, f, g⟩ (.setUrl u) = ⟨a, b, c, d, e, f, some u⟩ := rfl

@[simp] theorem applyEv_record (a b : String) (c : WStatus) (d : Int) (e : List Step)
    (f : List (String × RVal)) (g : Option String) (k : String) (v : RVal) :
    applyEv ⟨a, b, c, d, e, f, g⟩ (.record k v) = ⟨a, b, c, d, e, f ++ [(k, v)], g⟩ := rfl

@[simp] theorem applyEv_valCall (w : Workflow) (f : String) :
    applyEv w (.valCall f) = w := rfl

@[simp] theorem applyEv_upd0 (a b : String) (c : WStatus) (d : Int) (s0 s1 s2 s3 s4 : Step)
    (f : List (String × RVal)) (g : Option String) (st : StepStatus) (m : Msg) :
    applyEv ⟨a, b, c, d, [s0, s1, s2, s3, s4], f, g⟩ (.upd 0 st m) =
      ⟨a, b, c, 0, [⟨s0.name, st, m⟩, s1, s2, s3, s4], f, g⟩ := rfl

@[simp] theorem applyEv_upd1 (a b : String) (c : WStatus) (d : Int) (s0 s1 s2 s3 s4 : Step)
    (f : List (String × RVal)) (g : Option String) (st : StepStatus) (m : Msg) :
    applyEv ⟨a, b, c, d, [s0, s1, s2, s3, s4], f, g⟩ (.upd 1 st m) =
      ⟨a, b, c, 1, [s0, ⟨s1.name, st, m⟩, s2, s3, s4], f, g⟩ := rfl

@[simp] theorem applyEv_upd2 (a b : String) (c : WStatus) (d : Int) (s0 s1 s2 s3 s4 : Step)
    (f : List (String × RVal)) (g : Option String) (st : StepStatus) (m : Msg) :
    applyEv ⟨a, b, c, d, [s0, s1, s2, s3, s4], f, g⟩ (.upd 2 st m) =
      ⟨a, b, c, 2, [s0, s1, ⟨s2.name, st, m⟩, s3, s4], f, g⟩ := rfl

@[simp] theorem applyEv_upd3 (a b : String) (c : WStatus) (d : Int) (s0 s1 s2 s3 s4 : Step)
    (f : List (String × RVal)) (g : Option String) (st : StepStatus) (m : Msg) :
    applyEv ⟨a, b, c, d, [s0, s1, s2, s3, s4], f, g⟩ (.upd 3 st m) =
      ⟨a, b, c, 3, [s0, s1, s2, ⟨s3.name, st, m⟩, s4], f, g⟩ := rfl

@[simp] theorem applyEv_upd4 (a b : String) (c : WStatus) (d : Int) (s0 s1 s2 s3 s4 : Step)
    (f : List (String × RVal)) (g : Option String) (st : StepStatus) (m : Msg) :
    applyEv ⟨a, b, c, d, [s0, s1, s2, s3, s4], f, g⟩ (.upd 4 st m) =
      ⟨a, b, c, 4, [s0, s1, s2, s3, ⟨s4.name, st, m⟩], f, g⟩ := rfl

/-- Boolean-to-propositional bridge for the results-stage bound. -/
theorem all_stage_le {rs : List (String × RVal)} {k : Nat}
    (h : rs.all (fun p => decide (stageOfKey p.1 ≤ k)) = true) :
    ∀ key v, (key, v) ∈ rs → stageOfKey key ≤ k := by
  intro key v hm
  have := List.all_eq_true.mp h _ hm
  simpa using this

/-! ## Claim C1 -/

/-- C1: fail-fast sequencing.  For every execution, if the step at index `k` is
the first step marked failed, then the run ends with workflow status `failed`,
every step at an index greater than `k` is still `pending`, and every entry of
the `results` mapping was recorded by a stage at or before stage `k`. -/
theorem failFastSequencing (env : Env) (wfId story : String) (k : Nat)
    (h1 : statusAt (executeWorkflow env wfId story) k = some .failed)
    (h2 : ∀ j, j < k → statusAt (executeWorkflow env wfId story) j ≠ some .failed) :
    (executeWorkflow env wfId story).status = .failed ∧
    (∀ j, j < 5 → k < j → statusAt (executeWorkflow env wfId story) j = some .pending) ∧
    (∀ key v, (key, v) ∈ (executeWorkflow env wfId story).results → stageOfKey key ≤ k) := by
  cases hnet : env.network_logger_module with
  | false =>
    have hl := laterEvents_noNet env (urlOrDefault story) hnet
    have hs : stepStatuses (executeWorkflow env wfId story) =
        [.completed, .failed, .pending, .pending, .pending] := by
      simp [executeWorkflow, execEvents, hl, stepStatuses, mkWorkflow, initSteps]
    have hk : k = 1 := first_failed_eq h1 h2
      (by simp only [statusAt_eq, hs]; rfl) (by simp only [statusAt_eq, hs]; decide)
    subst hk
    refine ⟨?_, ?_, all_stage_le ?_⟩
    · simp [executeWorkflow, execEvents, hl, mkWorkflow, initSteps]
    · simp only [statusAt_eq, hs]; decide
    · simp [executeWorkflow, execEvents, hl, mkWorkflow, initSteps]
  | true =>
  cases huok : env.update_task_ok with
  | false =>
    have hl := laterEvents_noUpd env (urlOrDefault story) hnet huok
    have hs : stepStatuses (executeWorkflow env wfId story) =
        [.completed, .failed, .pending, .pending, .pending] := by
      simp [executeWorkflow, execEvents, hl, stepStatuses, mkWorkflow, initSteps]
    have hk : k = 1 := first_failed_eq h1 h2
      (by simp only [statusAt_eq, hs]; rfl) (by simp only [statusAt_eq, hs]; decide)
    subst hk
    refine ⟨?_, ?_, all_stage_le ?_⟩
    · simp [executeWorkflow, execEvents, hl, mkWorkflow, initSteps]
    · simp only [statusAt_eq, hs]; decide
    · simp [executeWorkflow, execEvents, hl, mkWorkflow, initSteps]
  | true =>
  cases hlog : (runScriptWithTimeout env.logOutcome 300).success with
  | false =>
    have hl := laterEvents_logFail env (urlOrDefault story) hnet huok hlog
    have hs : stepStatuses (executeWorkflow env wfId story) =
        [.completed, .failed, .pending, .pending, .pending] := by
      simp [executeWorkflow, execEvents, hl, stepStatuses, mkWorkflow, initSteps]
    have hk : k = 1 := first_failed_eq h1 h2
      (by simp only [statusAt_eq, hs]; rfl) (by simp only [statusAt_eq, hs]; decide)
    subst hk
    refine ⟨?_, ?_, all_stage_le ?_⟩
    · simp [executeWorkflow, execEvents, hl, mkWorkflow, initSteps]
    · simp only [statusAt_eq, hs]; decide
    · simp [executeWorkflow, execEvents, hl, mkWorkflow, initSteps]
  | true =>
  cases htsm : env.test_steps_module with
  | false =>
    have hl := laterEvents_noTsm env (urlOrDefault story) hnet huok hlog htsm
    have hs : stepStatuses (executeWorkflow env wfId story) =
        [.completed, .completed, .failed, .pending, .pending] := by
      simp [executeWorkflow, execEvents, hl, stepStatuses, mkWorkflow, initSteps]
    have hk : k = 2 := first_failed_eq h1 h2
      (by simp only [statusAt_eq, hs]; rfl) (by simp only [statusAt_eq, hs]; decide)
    subst hk
    refine ⟨?_, ?_, all_stage_le ?_⟩
    · simp [executeWorkflow, execEvents, hl, mkWorkflow, initSteps]
    · simp only [statusAt_eq, hs]; decide
    · simp [executeWorkflow, execEvents, hl, mkWorkflow, initSteps, stageOfKey]
  | true =>
  cases hts : (runScriptWithTimeout env.tsOutcome 120).success with
  | false =>
    have hl := laterEvents_tsFail env (urlOrDefault story) hnet huok hlog htsm hts
    have hs : stepStatuses (executeWorkflow env wfId story) =
        [.completed, .completed, .failed, .pending, .pending] := by
      simp [executeWorkflow, execEvents, hl, stepStatuses, mkWorkflow, initSteps]
    have hk : k = 2 := first_failed_eq h1 h2
      (by simp only [statusAt_eq, hs]; rfl) (by simp only [statusAt_eq, hs]; decide)
    subst hk
    refine ⟨?_, ?_, all_stage_le ?_⟩
    · simp [executeWorkflow, execEvents, hl, mkWorkflow, initSteps]
    · simp only [statusAt_eq, hs]; decide
    · simp [executeWorkflow, execEvents, hl, mkWorkflow, initSteps, stageOfKey]
  | true =>
  cases hjm : env.jmx_generator_module with
  | false =>
    have hl := laterEvents_noJm env (urlOrDefault story) hnet huok hlog htsm hts hjm
    have hs : stepStatuses (executeWorkflow env wfId story) =
        [.completed, .completed, .completed, .failed, .pending] := by
      simp [executeWorkflow, execEvents, hl, stepStatuses, mkWorkflow, initSteps]
    have hk : k = 3 := first_failed_eq h1 h2
      (by simp only [statusAt_eq, hs]; rfl) (by simp only [statusAt_eq, hs]; decide)
    subst hk
    refine ⟨?_, ?_, all_stage_le ?_⟩
    · simp [executeWorkflow, execEvents, hl, mkWorkflow, initSteps]
    · simp only [statusAt_eq, hs]; decide
    · simp [executeWorkflow, execEvents, hl, mkWorkflow, initSteps, stageOfKey]
  | true =>
  cases hpt : (runScriptWithTimeout env.ptOutcome 180).success with
  | false =>
    have hl := laterEvents_ptFail env (urlOrDefault story) hnet huok hlog htsm hts hjm hpt
    have hs : stepStatuses (executeWorkflow env wfId story) =
        [.completed, .completed, .completed, .failed, .pending] := by
      simp [executeWorkflow, execEvents, hl, stepStatuses, mkWorkflow, initSteps]
    have hk : k = 3 := first_failed_eq h1 h2
      (by simp only [statusAt_eq, hs]; rfl) (by simp only [statusAt_eq, hs]; decide)
    subst hk
    refine ⟨?_, ?_, all_stage_le ?_⟩
    · simp [executeWorkflow, execEvents, hl, mkWorkflow, initSteps]
    · simp only [statusAt_eq, hs]; decide
    · simp [executeWorkflow, execEvents, hl, mkWorkflow, initSteps, stageOfKey]
  | true =>
  cases hvv : env.validation_module && env.validator_ok with
  | false =>
    have hl := laterEvents_noVal env (urlOrDefault story) hnet huok hlog htsm hts hjm hpt hvv
    have hs : stepStatuses (executeWorkflow env wfId story) =
        [.completed, .completed, .completed, .completed, .failed] := by
      simp [executeWorkflow, execEvents, hl, stepStatuses, mkWorkflow, initSteps]
    have hk : k = 4 := first_failed_eq h1 h2
      (by simp only [statusAt_eq, hs]; rfl) (by simp only [statusAt_eq, hs]; decide)
    subst hk
    refine ⟨?_, ?_, all_stage_le ?_⟩
    · simp [executeWorkflow, execEvents, hl, mkWorkflow, initSteps]
    · simp only [statusAt_eq, hs]; decide
    · simp [executeWorkflow, execEvents, hl, mkWorkflow, initSteps, stageOfKey]
  | true =>
  cases hjmx : (jmxFilesOf env).isEmpty with
  | true =>
    have hl := laterEvents_noJmx env (urlOrDefault story) hnet huok hlog htsm hts hjm hpt hvv hjmx
    have hs : stepStatuses (executeWorkflow env wfId story) =
        [.completed, .completed, .completed, .completed, .failed] := by
      simp [executeWorkflow, execEvents, hl, stepStatuses, mkWorkflow, initSteps]
    have hk : k = 4 := first_failed_eq h1 h2
      (by simp only [statusAt_eq, hs]; rfl) (by simp only [statusAt_eq, hs]; decide)
    subst hk
    refine ⟨?_, ?_, all_stage_le ?_⟩
    · simp [executeWorkflow, execEvents, hl, mkWorkflow, initSteps]
    · simp only [statusAt_eq, hs]; decide
    · simp [executeWorkflow, execEvents, hl, mkWorkflow, initSteps, stageOfKey]
  | false =>
  rcases hvl : valLoop env.validateFile env.genReport (jmxFilesOf env) with ⟨vevs, vres⟩
  have hvalc : ∀ e ∈ vevs, ∃ f, e = Ev.valCall f := by
    have h := valLoop_events env.validateFile env.genReport (jmxFilesOf env)
    rw [hvl] at h
    exact h
  cases vres with
  | error er =>
    have hl := laterEvents_valErr env (urlOrDefault story) vevs er hnet huok hlog htsm hts
      hjm hpt hvv hjmx hvl
    have hs : stepStatuses (executeWorkflow env wfId story) =
        [.completed, .completed, .completed, .completed, .failed] := by
      simp [executeWorkflow, execEvents, hl, applyEvents_append,
        applyEvents_skip_valCalls vevs hvalc, stepStatuses, mkWorkflow, initSteps]
    have hk : k = 4 := first_failed_eq h1 h2
      (by simp only [statusAt_eq, hs]; rfl) (by simp only [statusAt_eq, hs]; decide)
    subst hk
    refine ⟨?_, ?_, all_stage_le ?_⟩
    · simp [executeWorkflow, execEvents, hl, applyEvents_append,
        applyEvents_skip_valCalls vevs hvalc, mkWorkflow, initSteps]
    · simp only [statusAt_eq, hs]; decide
    · simp [executeWorkflow, execEvents, hl, applyEvents_append,
        applyEvents_skip_valCalls vevs hvalc, mkWorkflow, initSteps, stageOfKey]
  | ok vrs =>
    exfalso
    have hl := laterEvents_valOk env (urlOrDefault story) vevs vrs hnet huok hlog htsm hts
      hjm hpt hvv hjmx hvl
    have hs : stepStatuses (executeWorkflow env wfId story) =
        [.completed, .completed, .completed, .completed, .completed] := by
      simp [executeWorkflow, execEvents, hl, applyEvents_append,
        applyEvents_skip_valCalls vevs hvalc, stepStatuses, mkWorkflow, initSteps]
    rw [statusAt_eq, hs] at h1
    rcases k with _ | _ | _ | _ | _ | k <;> simp [List.get?] at h1

/-- Witness for C1: a network-logging subprocess exiting with code 1 makes
step 1 the first failed step; the theorem applies with `k = 1`. -/
theorem failFastSequencing_witness :
    (executeWorkflow ⟨true, true, true, true, true, true, .exited 1 "" "boom",
        .exited 0 "" "", .exited 0 "" "", "", fun _ => false, false, [], false, [],
        fun _ => Except.ok "pass", fun _ => Except.ok ()⟩ "wf-1" "s").status = .failed ∧
    (∀ j, j < 5 → 1 < j →
      statusAt (executeWorkflow ⟨true, true, true, true, true, true, .exited 1 "" "boom",
        .exited 0 "" "", .exited 0 "" "", "", fun _ => false, false, [], false, [],
        fun _ => Except.ok "pass", fun _ => Except.ok ()⟩ "wf-1" "s") j = some .pending) :=
  ⟨(failFastSequencing _ "wf-1" "s" 1 (by decide) (by decide)).1,
   (failFastSequencing _ "wf-1" "s" 1 (by decide) (by decide)).2.1⟩

/-! ## Claim C10 -/

/-- C10: an out-of-range step update (negative index or one at least the number
of steps) raises nothing and leaves the workflow entirely unchanged. -/
theorem update_step_status_out_of_range (w : Workflow) (i : Int) (st : StepStatus) (m : Msg)
    (h : i < 0 ∨ (w.steps.length : Int) ≤ i) :
    update_step_status w i st m = w := by
  unfold update_step_status
  rw [if_neg]
  rintro ⟨h1, h2⟩
  rcases h with h | h <;> omega

/-- Witness for C10 at the concrete indices `-1` and `5` on a fresh workflow. -/
theorem update_step_status_out_of_range_witness :
    update_step_status (mkWorkflow "wf" "story") (-1) .running .empty = mkWorkflow "wf" "story" ∧
    update_step_status (mkWorkflow "wf" "story") 5 .failed .empty = mkWorkflow "wf" "story" :=
  ⟨update_step_status_out_of_range _ _ _ _ (Or.inl (by decide)),
   update_step_status_out_of_range _ _ _ _ (Or.inr (by decide))⟩

/-! ## Claim C5 -/

/-- C5: `run_script_with_timeout` returns `success = true` exactly when the
child exited with return code 0; a timeout gives `success = false`,
`returncode = -1`, empty stdout and the synthetic timeout text in `stderr`;
a launch-level exception gives the same shape with the error text in `stderr`.
The function consumes a single process outcome, so no retry is possible. -/
theorem runScript_contract (o : ProcOutcome) (t : Nat) :
    ((runScriptWithTimeout o t).success = true ↔ ∃ out err, o = .exited 0 out err) ∧
    runScriptWithTimeout .timedOut t =
      ⟨false, -1, "", "Script execution timed out after " ++ toString t ++ " seconds"⟩ ∧
    (∀ m, runScriptWithTimeout (.launchError m) t = ⟨false, -1, "", m⟩) := by
  refine ⟨?_, rfl, fun m => rfl⟩
  cases o with
  | exited c out err =>
    simp only [runScriptWithTimeout, decide_eq_true_eq]
    constructor
    · rintro rfl; exact ⟨out, err, rfl⟩
    · rintro ⟨o', e', h⟩
      cases h
      rfl
  | timedOut => simp [runScriptWithTimeout]
  | launchError m => simp [runScriptWithTimeout]

/-! ## Claim C3 -/

/-- In every branch of the execution, `target_url` holds the stage-1 URL. -/
theorem exec_target (env : Env) (wfId story : String) :
    (executeWorkflow env wfId story).target_url = some (urlOrDefault story) := by
  cases hnet : env.network_logger_module with
  | false =>
    have hl := laterEvents_noNet env (urlOrDefault story) hnet
    simp [executeWorkflow, execEvents, hl, mkWorkflow, initSteps]
  | true =>
  cases huok : env.update_task_ok with
  | false =>
    have hl := laterEvents_noUpd env (urlOrDefault story) hnet huok
    simp [executeWorkflow, execEvents, hl, mkWorkflow, initSteps]
  | true =>
  cases hlog : (runScriptWithTimeout env.logOutcome 300).success with
  | false =>
    have hl := laterEvents_logFail env (urlOrDefault story) hnet huok hlog
    simp [executeWorkflow, execEvents, hl, mkWorkflow, initSteps]
  | true =>
  cases htsm : env.test_steps_module with
  | false =>
    have hl := laterEvents_noTsm env (urlOrDefault story) hnet huok hlog htsm
    simp [executeWorkflow, execEvents, hl, mkWorkflow, initSteps]
  | true =>
  cases hts : (runScriptWithTimeout env.tsOutcome 120).success with
  | false =>
    have hl := laterEvents_tsFail env (urlOrDefault story) hnet huok hlog htsm hts
    simp [executeWorkflow, execEvents, hl, mkWorkflow, initSteps]
  | true =>
  cases hjm : env.jmx_generator_module with
  | false =>
    have hl := laterEvents_noJm env (urlOrDefault story) hnet huok hlog htsm hts hjm
    simp [executeWorkflow, execEvents, hl, mkWorkflow, initSteps]
  | true =>
  cases hpt : (runScriptWithTimeout env.ptOutcome 180).success with
  | false =>
    have hl := laterEvents_ptFail env (urlOrDefault story) hnet huok hlog htsm hts hjm hpt
    simp [executeWorkflow, execEvents, hl, mkWorkflow, initSteps]
  | true =>
  cases hvv : env.validation_module && env.validator_ok with
  | false =>
    have hl := laterEvents_noVal env (urlOrDefault story) hnet huok hlog htsm hts hjm hpt hvv
    simp [executeWorkflow, execEvents, hl, mkWorkflow, initSteps]
  | true =>
  cases hjmx : (jmxFilesOf env).isEmpty with
  | true =>
    have hl := laterEvents_noJmx env (urlOrDefault story) hnet huok hlog htsm hts hjm hpt hvv hjmx
    simp [executeWorkflow, execEvents, hl, mkWorkflow, initSteps]
  | false =>
  rcases hvl : valLoop env.validateFile env.genReport (jmxFilesOf env) with ⟨vevs, vres⟩
  have hvalc : ∀ e ∈ vevs, ∃ f, e = Ev.valCall f := by
    have h := valLoop_events env.validateFile env.genReport (jmxFilesOf env)
    rw [hvl] at h
    exact h
  cases vres with
  | error er =>
    have hl := laterEvents_valErr env (urlOrDefault story) vevs er hnet huok hlog htsm hts
      hjm hpt hvv hjmx hvl
    simp [executeWorkflow, execEvents, hl, applyEvents_append,
      applyEvents_skip_valCalls vevs hvalc, mkWorkflow, initSteps]
  | ok vrs =>
    have hl := laterEvents_valOk env (urlOrDefault story) vevs vrs hnet huok hlog htsm hts
      hjm hpt hvv hjmx hvl
    simp [executeWorkflow, execEvents, hl, applyEvents_append,
      applyEvents_skip_valCalls vevs hvalc, mkWorkflow, initSteps]

/-- A leftmost fired `urlAt` determines the scan result. -/
theorem firstUrlScan_of_leftmost (s : List Char) :
    ∀ i u, urlAt (s.drop i) = some u → (∀ j, j < i → urlAt (s.drop j) = none) →
      firstUrlScan s = some u := by
  induction s with
  | nil =>
    intro i u h _
    rw [List.drop_nil] at h
    simp [urlAt] at h
  | cons c r ih =>
    intro i u h hb
    cases i with
    | zero =>
      simp only [List.drop] at h
      simp [firstUrlScan, h]
    | succ i =>
      have h0 : urlAt (c :: r) = none := hb 0 (Nat.succ_pos i)
      simp only [firstUrlScan, h0]
      exact ih i u h (fun j hj => hb (j + 1) (by omega))

/-- When `urlAt` fires nowhere, the scan finds nothing. -/
theorem firstUrlScan_of_none (s : List Char) (h : ∀ i, urlAt (s.drop i) = none) :
    firstUrlScan s = none := by
  induction s with
  | nil => rfl
  | cons c r ih =>
    have h0 : urlAt (c :: r) = none := h 0
    simp only [firstUrlScan, h0]
    exact ih (fun i => h (i + 1))

/-- Positions past the end never fire, so a bounded check suffices. -/
theorem urlAt_none_of_ball (s : List Char) (h : ∀ i, i < s.length → urlAt (s.drop i) = none) :
    ∀ i, urlAt (s.drop i) = none := by
  intro i
  by_cases hi : i < s.length
  · exact h i hi
  · rw [List.drop_eq_nil_of_le (by omega)]
    rfl

/-- C3: after every execution, `target_url` is the first URL-shaped substring
of the story (the leftmost position where `https?://[^\s]+` matches, taking
the maximal non-whitespace run there), and the fixed default
`https://example.com` when the story contains no URL-shaped substring. -/
theorem urlExtraction (env : Env) (wfId story : String) :
    (∀ i u, urlAt (story.data.drop i) = some u →
      (∀ j, j < i → urlAt (story.data.drop j) = none) →
      (executeWorkflow env wfId story).target_url = some (String.mk u)) ∧
    ((∀ i, urlAt (story.data.drop i) = none) →
      (executeWorkflow env wfId story).target_url = some "https://example.com") := by
  have htu := exec_target env wfId story
  constructor
  · intro i u h hb
    rw [htu]
    simp [urlOrDefault, urlOrDefaultL, firstUrlScan_of_leftmost story.data i u h hb]
  · intro h
    rw [htu]
    simp [urlOrDefault, urlOrDefaultL, firstUrlScan_of_none story.data h]

/-! ## Claim C7 -/

/-- C7: the validation aggregator.  On a run that reaches the validation stage
with a non-empty artifact list and whose per-file checks all return, the
reported tally counts exactly the `pass` / `warning` / `fail` classifications,
the raw per-artifact results are recorded under `validation`, and the workflow
finishes `completed`. -/
theorem validationTally (env : Env) (wfId story : String) (vevs : List Ev)
    (vrs : List (String × String))
    (hnet : env.network_logger_module = true) (huok : env.update_task_ok = true)
    (hlog : (runScriptWithTimeout env.logOutcome 300).success = true)
    (htsm : env.test_steps_module = true)
    (hts : (runScriptWithTimeout env.tsOutcome 120).success = true)
    (hjm : env.jmx_generator_module = true)
    (hpt : (runScriptWithTimeout env.ptOutcome 180).success = true)
    (hvv : (env.validation_module && env.validator_ok) = true)
    (hjmx : (jmxFilesOf env).isEmpty = false)
    (hvl : valLoop env.validateFile env.genReport (jmxFilesOf env) = (vevs, .ok vrs)) :
    (executeWorkflow env wfId story).status = .completed ∧
    statusAt (executeWorkflow env wfId story) 4 = some .completed ∧
    msgAt (executeWorkflow env wfId story) 4 =
      some (.validationComplete (vrs.countP (fun v => v.2 == "pass"))
        (vrs.countP (fun v => v.2 == "warning")) (vrs.countP (fun v => v.2 == "fail"))) ∧
    lookupKey "validation" (executeWorkflow env wfId story).results =
      some (.validation vrs) := by
  have hvalc : ∀ e ∈ vevs, ∃ f, e = Ev.valCall f := by
    have h := valLoop_events env.validateFile env.genReport (jmxFilesOf env)
    rw [hvl] at h
    exact h
  have hl := laterEvents_valOk env (urlOrDefault story) vevs vrs hnet huok hlog htsm hts
    hjm hpt hvv hjmx hvl
  refine ⟨?_, ?_, ?_, ?_⟩ <;>
    simp [executeWorkflow, execEvents, hl, applyEvents_append,
      applyEvents_skip_valCalls vevs hvalc, mkWorkflow, initSteps, statusAt, msgAt, lookupKey]

/-- Witness for C7, which is the spec's Scenario A: two script artifacts, both
classified `pass`, give the tally `(2, 0, 0)` and a completed workflow. -/
theorem validationTally_witness :
    (executeWorkflow ⟨true, true, true, true, true, true, .exited 0 "" "", .exited 0 "" "",
        .exited 0 "" "", "", fun _ => false, false, [], true,
        ["JMX_SCRIPT_OUTPUT/a.jmx", "JMX_SCRIPT_OUTPUT/b.jmx"],
        fun _ => Except.ok "pass", fun _ => Except.ok ()⟩ "wf-a"
        "Test login for https://example.com").status = .completed ∧
    msgAt (executeWorkflow ⟨true, true, true, true, true, true, .exited 0 "" "", .exited 0 "" "",
        .exited 0 "" "", "", fun _ => false, false, [], true,
        ["JMX_SCRIPT_OUTPUT/a.jmx", "JMX_SCRIPT_OUTPUT/b.jmx"],
        fun _ => Except.ok "pass", fun _ => Except.ok ()⟩ "wf-a"
        "Test login for https://example.com") 4 = some (.validationComplete 2 0 0) := by
  have h := validationTally ⟨true, true, true, true, true, true, .exited 0 "" "",
      .exited 0 "" "", .exited 0 "" "", "", fun _ => false, false, [], true,
      ["JMX_SCRIPT_OUTPUT/a.jmx", "JMX_SCRIPT_OUTPUT/b.jmx"],
      fun _ => Except.ok "pass", fun _ => Except.ok ()⟩ "wf-a"
    "Test login for https://example.com"
    [.valCall "JMX_SCRIPT_OUTPUT/a.jmx", .valCall "JMX_SCRIPT_OUTPUT/b.jmx"]
    [("JMX_SCRIPT_OUTPUT/a.jmx", "pass"), ("JMX_SCRIPT_OUTPUT/b.jmx", "pass")]
    rfl rfl rfl rfl rfl rfl rfl rfl rfl rfl
  exact ⟨h.1, h.2.2.1⟩

/-! ## Claim C8 -/

/-- C8: when the run reaches validation but the scan of the script output
directory produced zero `.jmx` files, the validation step fails with the
no-artifacts message, the workflow fails, nothing is recorded under
`validation`, and the per-file validator check is never invoked (no `valCall`
event occurs in the whole trace). -/
theorem emptyArtifactsFail (env : Env) (wfId story : String)
    (hnet : env.network_logger_module = true) (huok : env.update_task_ok = true)
    (hlog : (runScriptWithTimeout env.logOutcome 300).success = true)
    (htsm : env.test_steps_module = true)
    (hts : (runScriptWithTimeout env.tsOutcome 120).success = true)
    (hjm : env.jmx_generator_module = true)
    (hpt : (runScriptWithTimeout env.ptOutcome 180).success = true)
    (hvv : (env.validation_module && env.validator_ok) = true)
    (hjmx : (jmxFilesOf env).isEmpty = true) :
    statusAt (executeWorkflow env wfId story) 4 = some .failed ∧
    (executeWorkflow env wfId story).status = .failed ∧
    msgAt (executeWorkflow env wfId story) 4 = some .noJmxFound ∧
    lookupKey "validation" (executeWorkflow env wfId story).results = none ∧
    (∀ f, Ev.valCall f ∉ execEvents env story) := by
  have hl := laterEvents_noJmx env (urlOrDefault story) hnet huok hlog htsm hts hjm hpt hvv hjmx
  refine ⟨?_, ?_, ?_, ?_, ?_⟩ <;>
    simp [executeWorkflow, execEvents, hl, mkWorkflow, initSteps, statusAt, msgAt, lookupKey]

/-- Witness for C8: the script-generation process succeeds but the output
directory does not exist, so no `.jmx` file is found. -/
theorem emptyArtifactsFail_witness :
    statusAt (executeWorkflow ⟨true, true, true, true, true, true, .exited 0 "" "",
        .exited 0 "" "", .exited 0 "" "", "", fun _ => false, false, [], false, [],
        fun _ => Except.ok "pass", fun _ => Except.ok ()⟩ "wf-e" "s") 4 = some .failed ∧
    (executeWorkflow ⟨true, true, true, true, true, true, .exited 0 "" "",
        .exited 0 "" "", .exited 0 "" "", "", fun _ => false, false, [], false, [],
        fun _ => Except.ok "pass", fun _ => Except.ok ()⟩ "wf-e" "s").status = .failed := by
  have h := emptyArtifactsFail ⟨true, true, true, true, true, true, .exited 0 "" "",
      .exited 0 "" "", .exited 0 "" "", "", fun _ => false, false, [], false, [],
      fun _ => Except.ok "pass", fun _ => Except.ok ()⟩ "wf-e" "s"
    rfl rfl rfl rfl rfl rfl rfl rfl rfl
  exact ⟨h.1, h.2.1⟩

/-! ## Claim C9 -/

/-- C9: the post-stage artifact scan is total.  Whenever the step-derivation
process succeeds, the step reaches `completed` regardless of the state of the
output directory, and the recorded debug payload always carries initialised
(possibly empty) lists: the found files, and the directory contents, which are
`[]` exactly when the directory does not exist. -/
theorem artifactScanTotal (env : Env) (wfId story : String)
    (hnet : env.network_logger_module = true) (huok : env.update_task_ok = true)
    (hlog : (runScriptWithTimeout env.logOutcome 300).success = true)
    (htsm : env.test_steps_module = true)
    (hts : (runScriptWithTimeout env.tsOutcome 120).success = true) :
    statusAt (executeWorkflow env wfId story) 2 = some .completed ∧
    lookupKey "teststeps_debug" (executeWorkflow env wfId story).results =
      some (.debug ⟨env.cwd, env.tsDirExists, expectedFiles, tsOutputFiles env,
        if env.tsDirExists then env.tsWalk else []⟩) := by
  cases hjm : env.jmx_generator_module with
  | false =>
    have hl := laterEvents_noJm env (urlOrDefault story) hnet huok hlog htsm hts hjm
    refine ⟨?_, ?_⟩ <;>
      simp [executeWorkflow, execEvents, hl, mkWorkflow, initSteps, statusAt, lookupKey]
  | true =>
  cases hpt : (runScriptWithTimeout env.ptOutcome 180).success with
  | false =>
    have hl := laterEvents_ptFail env (urlOrDefault story) hnet huok hlog htsm hts hjm hpt
    refine ⟨?_, ?_⟩ <;>
      simp [executeWorkflow, execEvents, hl, mkWorkflow, initSteps, statusAt, lookupKey]
  | true =>
  cases hvv : env.validation_module && env.validator_ok with
  | false =>
    have hl := laterEvents_noVal env (urlOrDefault story) hnet huok hlog htsm hts hjm hpt hvv
    refine ⟨?_, ?_⟩ <;>
      simp [executeWorkflow, execEvents, hl, mkWorkflow, initSteps, statusAt, lookupKey]
  | true =>
  cases hjmx : (jmxFilesOf env).isEmpty with
  | true =>
    have hl := laterEvents_noJmx env (urlOrDefault story) hnet huok hlog htsm hts hjm hpt hvv hjmx
    refine ⟨?_, ?_⟩ <;>
      simp [executeWorkflow, execEvents, hl, mkWorkflow, initSteps, statusAt, lookupKey]
  | false =>
  rcases hvl : valLoop env.validateFile env.genReport (jmxFilesOf env) with ⟨vevs, vres⟩
  have hvalc : ∀ e ∈ vevs, ∃ f, e = Ev.valCall f := by
    have h := valLoop_events env.validateFile env.genReport (jmxFilesOf env)
    rw [hvl] at h
    exact h
  cases vres with
  | error er =>
    have hl := laterEvents_valErr env (urlOrDefault story) vevs er hnet huok hlog htsm hts
      hjm hpt hvv hjmx hvl
    refine ⟨?_, ?_⟩ <;>
      simp [executeWorkflow, execEvents, hl, applyEvents_append,
        applyEvents_skip_valCalls vevs hvalc, mkWorkflow, initSteps, statusAt, lookupKey]
  | ok vrs =>
    have hl := laterEvents_valOk env (urlOrDefault story) vevs vrs hnet huok hlog htsm hts
      hjm hpt hvv hjmx hvl
    refine ⟨?_, ?_⟩ <;>
      simp [executeWorkflow, execEvents, hl, applyEvents_append,
        applyEvents_skip_valCalls vevs hvalc, mkWorkflow, initSteps, statusAt, lookupKey]

/-- Witness for C9: the output directory does not exist and no expected file is
found, yet the step completes and the debug lists are the empty lists. -/
theorem artifactScanTotal_witness :
    statusAt (executeWorkflow ⟨true, true, true, true, true, true, .exited 0 "" "",
        .exited 0 "" "", .exited 0 "" "", "", fun _ => false, false, [], false, [],
        fun _ => Except.ok "pass", fun _ => Except.ok ()⟩ "wf-9" "s") 2 = some .completed ∧
    lookupKey "teststeps_debug" (executeWorkflow ⟨true, true, true, true, true, true,
        .exited 0 "" "", .exited 0 "" "", .exited 0 "" "", "", fun _ => false, false, [],
        false, [], fun _ => Except.ok "pass", fun _ => Except.ok ()⟩ "wf-9" "s").results =
      some (.debug ⟨"", false, expectedFiles, [], []⟩) := by
  have h := artifactScanTotal ⟨true, true, true, true, true, true, .exited 0 "" "",
      .exited 0 "" "", .exited 0 "" "", "", fun _ => false, false, [], false, [],
      fun _ => Except.ok "pass", fun _ => Except.ok ()⟩ "wf-9" "s"
    rfl rfl rfl rfl rfl
  exact ⟨h.1, h.2⟩

/-! ## Claim C2: trace machinery -/

@[simp] theorem chkWith_nil (f : StepStatus → StepStatus → Bool) (ss : List StepStatus) :
    chkWith f ss [] = invOk ss := rfl

@[simp] theorem chkWith_cons (f : StepStatus → StepStatus → Bool) (ss : List StepStatus)
    (e : Ev) (r : List Ev) :
    chkWith f ss (e :: r) =
      (invOk ss && okPairWith f ss (applyStat ss e) && chkWith f (applyStat ss e) r) := rfl

@[simp] theorem applyStat_setStatus (ss : List StepStatus) (s : WStatus) :
    applyStat ss (.setStatus s) = ss := rfl

@[simp] theorem applyStat_setUrl (ss : List StepStatus) (u : String) :
    applyStat ss (.setUrl u) = ss := rfl

@[simp] theorem applyStat_record (ss : List StepStatus) (k : String) (v : RVal) :
    applyStat ss (.record k v) = ss := rfl

@[simp] theorem applyStat_valCall (ss : List StepStatus) (g : String) :
    applyStat ss (.valCall g) = ss := rfl

@[simp] theorem applyStat_upd0 (a b c d e : StepStatus) (st : StepStatus) (m : Msg) :
    applyStat [a, b, c, d, e] (.upd 0 st m) = [st, b, c, d, e] := rfl

@[simp] theorem applyStat_upd1 (a b c d e : StepStatus) (st : StepStatus) (m : Msg) :
    applyStat [a, b, c, d, e] (.upd 1 st m) = [a, st, c, d, e] := rfl

@[simp] theorem applyStat_upd2 (a b c d e : StepStatus) (st : StepStatus) (m : Msg) :
    applyStat [a, b, c, d, e] (.upd 2 st m) = [a, b, st, d, e] := rfl

@[simp] theorem applyStat_upd3 (a b c d e : StepStatus) (st : StepStatus) (m : Msg) :
    applyStat [a, b, c, d, e] (.upd 3 st m) = [a, b, c, st, e] := rfl

@[simp] theorem applyStat_upd4 (a b c d e : StepStatus) (st : StepStatus) (m : Msg) :
    applyStat [a, b, c, d, e] (.upd 4 st m) = [a, b, c, d, st] := rfl

theorem okPairWith_refl (f : StepStatus → StepStatus → Bool) (hf : ∀ a, f a a = true) :
    ∀ ss, okPairWith f ss ss = true := by
  intro ss
  induction ss with
  | nil => rfl
  | cons a ra ih => simp [okPairWith, hf a, ih]

theorem chk_head_inv (f : StepStatus → StepStatus → Bool) (ss : List StepStatus)
    (evs : List Ev) (h : chkWith f ss evs = true) : invOk ss = true := by
  cases evs with
  | nil => exact h
  | cons e r =>
    simp only [chkWith, Bool.and_eq_true] at h
    exact h.1.1

theorem chkWith_append_of (f : StepStatus → StepStatus → Bool) (b : List Ev) :
    ∀ (a : List Ev) (ss), chkWith f ss a = true →
      chkWith f (List.foldl applyStat ss a) b = true → chkWith f ss (a ++ b) = true := by
  intro a
  induction a with
  | nil => intro ss _ h2; simpa using h2
  | cons e ra ih =>
    intro ss h1 h2
    simp only [chkWith, Bool.and_eq_true] at h1
    simp only [List.cons_append, chkWith, Bool.and_eq_true]
    exact ⟨h1.1, ih (applyStat ss e) h1.2 h2⟩

theorem foldl_applyStat_valCalls : ∀ (evs : List Ev),
    (∀ e ∈ evs, ∃ g, e = Ev.valCall g) → ∀ ss, List.foldl applyStat ss evs = ss := by
  intro evs
  induction evs with
  | nil => intro _ ss; rfl
  | cons e ra ih =>
    intro h ss
    obtain ⟨g, rfl⟩ := h e (by simp)
    have h0 : List.foldl applyStat ss (Ev.valCall g :: ra) = List.foldl applyStat ss ra := rfl
    rw [h0]
    exact ih (fun e he => h e (by simp [he])) ss

theorem chkWith_valCalls (f : StepStatus → StepStatus → Bool) (hf : ∀ a, f a a = true) :
    ∀ (evs : List Ev), (∀ e ∈ evs, ∃ g, e = Ev.valCall g) →
      ∀ ss, invOk ss = true → chkWith f ss evs = true := by
  intro evs
  induction evs with
  | nil => intro _ ss h; exact h
  | cons e ra ih =>
    intro h ss hinv
    obtain ⟨g, rfl⟩ := h e (by simp)
    simp only [chkWith, Bool.and_eq_true]
    have ha : applyStat ss (Ev.valCall g) = ss := rfl
    rw [ha]
    exact ⟨⟨hinv, okPairWith_refl f hf ss⟩, ih (fun e he => h e (by simp [he])) ss hinv⟩

theorem chk_absorb_inv (f : StepStatus → StepStatus → Bool) (ss : List StepStatus)
    (b : List Ev) : (invOk ss && chkWith f ss b) = chkWith f ss b := by
  cases b with
  | nil => simp [chkWith]
  | cons e r =>
    simp only [chkWith]
    cases invOk ss <;> simp

theorem chkWith_append_eq (f : StepStatus → StepStatus → Bool) (b : List Ev) :
    ∀ (a : List Ev) (ss),
      chkWith f ss (a ++ b) =
        (chkWith f ss a && chkWith f (List.foldl applyStat ss a) b) := by
  intro a
  induction a with
  | nil =>
    intro ss
    simp only [List.nil_append, chkWith_nil, List.foldl_nil]
    exact (chk_absorb_inv f ss b).symm
  | cons e ra ih =>
    intro ss
    simp only [List.cons_append, chkWith_cons, List.foldl_cons, ih, Bool.and_assoc]

theorem chkWith_take (f : StepStatus → StepStatus → Bool) (hf : ∀ a, f a a = true) :
    ∀ (evs : List Ev) (ss), chkWith f ss evs = true → ∀ n,
      invOk (List.foldl applyStat ss (evs.take n)) = true ∧
      okPairWith f (List.foldl applyStat ss (evs.take n))
        (List.foldl applyStat ss (evs.take (n + 1))) = true := by
  intro evs
  induction evs with
  | nil =>
    intro ss h n
    simp only [List.take_nil]
    exact ⟨h, okPairWith_refl f hf ss⟩
  | cons e ra ih =>
    intro ss h n
    simp only [chkWith, Bool.and_eq_true] at h
    cases n with
    | zero =>
      refine ⟨h.1.1, ?_⟩
      simpa using h.1.2
    | succ m =>
      have hm := ih (applyStat ss e) h.2 m
      simpa [List.foldl] using hm

theorem map_status_setStep : ∀ (l : List Step) (n : Nat) (st : StepStatus) (m : Msg),
    (setStep l n st m).map Step.status = setStat (l.map Step.status) n st := by
  intro l
  induction l with
  | nil => intro n st m; rfl
  | cons s rest ih =>
    intro n st m
    cases n with
    | zero => rfl
    | succ k => simp [setStep, setStat, ih]

theorem stepStatuses_applyEv (w : Workflow) (e : Ev) :
    stepStatuses (applyEv w e) = applyStat (stepStatuses w) e := by
  cases e with
  | upd i st m =>
    have ha : applyStat (stepStatuses w) (.upd i st m) =
        if 0 ≤ i ∧ i < ((stepStatuses w).length : Int) then
          setStat (stepStatuses w) i.toNat st
        else stepStatuses w := rfl
    have hb : applyEv w (.upd i st m) = update_step_status w i st m := rfl
    have hlen : ((stepStatuses w).length : Int) = (w.steps.length : Int) := by
      simp [stepStatuses]
    rw [ha, hb, hlen]
    unfold update_step_status
    by_cases h : 0 ≤ i ∧ i < (w.steps.length : Int)
    · rw [if_pos h, if_pos h]
      exact map_status_setStep w.steps i.toNat st m
    · rw [if_neg h, if_neg h]
  | setStatus s => rfl
  | setUrl u => rfl
  | record k v => rfl
  | valCall f => rfl

theorem stepStatuses_applyEvents (evs : List Ev) : ∀ (w : Workflow),
    stepStatuses (applyEvents w evs) = List.foldl applyStat (stepStatuses w) evs := by
  induction evs with
  | nil => intro w; rfl
  | cons e ra ih =>
    intro w
    have h1 : applyEvents w (e :: ra) = applyEvents (applyEv w e) ra := rfl
    rw [h1, ih (applyEv w e), stepStatuses_applyEv]
    rfl

theorem okStepA_refl : ∀ a, okStepA a a = true := by
  intro a; cases a <;> rfl

/-- Every execution trace passes the (amended) per-state and per-transition
check. -/
theorem execEvents_chk (env : Env) (story : String) :
    chkWith okStepA initStatuses (execEvents env story) = true := by
  cases hnet : env.network_logger_module with
  | false =>
    have hl := laterEvents_noNet env (urlOrDefault story) hnet
    simp only [execEvents, hl, List.cons_append, List.nil_append, chkWith_cons, chkWith_nil,
      applyStat_setStatus, applyStat_setUrl, applyStat_record, applyStat_valCall,
      applyStat_upd0, applyStat_upd1, applyStat_upd2, applyStat_upd3, applyStat_upd4,
      initStatuses]
    decide
  | true =>
  cases huok : env.update_task_ok with
  | false =>
    have hl := laterEvents_noUpd env (urlOrDefault story) hnet huok
    simp only [execEvents, hl, List.cons_append, List.nil_append, chkWith_cons, chkWith_nil,
      applyStat_setStatus, applyStat_setUrl, applyStat_record, applyStat_valCall,
      applyStat_upd0, applyStat_upd1, applyStat_upd2, applyStat_upd3, applyStat_upd4,
      initStatuses]
    decide
  | true =>
  cases hlog : (runScriptWithTimeout env.logOutcome 300).success with
  | false =>
    have hl := laterEvents_logFail env (urlOrDefault story) hnet huok hlog
    simp only [execEvents, hl, List.cons_append, List.nil_append, chkWith_cons, chkWith_nil,
      applyStat_setStatus, applyStat_setUrl, applyStat_record, applyStat_valCall,
      applyStat_upd0, applyStat_upd1, applyStat_upd2, applyStat_upd3, applyStat_upd4,
      initStatuses]
    decide
  | true =>
  cases htsm : env.test_steps_module with
  | false =>
    have hl := laterEvents_noTsm env (urlOrDefault story) hnet huok hlog htsm
    simp only [execEvents, hl, List.cons_append, List.nil_append, chkWith_cons, chkWith_nil,
      applyStat_setStatus, applyStat_setUrl, applyStat_record, applyStat_valCall,
      applyStat_upd0, applyStat_upd1, applyStat_upd2, applyStat_upd3, applyStat_upd4,
      initStatuses]
    decide
  | true =>
  cases hts : (runScriptWithTimeout env.tsOutcome 120).success with
  | false =>
    have hl := laterEvents_tsFail env (urlOrDefault story) hnet huok hlog htsm hts
    simp only [execEvents, hl, List.cons_append, List.nil_append, chkWith_cons, chkWith_nil,
      applyStat_setStatus, applyStat_setUrl, applyStat_record, applyStat_valCall,
      applyStat_upd0, applyStat_upd1, applyStat_upd2, applyStat_upd3, applyStat_upd4,
      initStatuses]
    decide
  | true =>
  cases hjm : env.jmx_generator_module with
  | false =>
    have hl := laterEvents_noJm env (urlOrDefault story) hnet huok hlog htsm hts hjm
    simp only [execEvents, hl, List.cons_append, List.nil_append, chkWith_cons, chkWith_nil,
      applyStat_setStatus, applyStat_setUrl, applyStat_record, applyStat_valCall,
      applyStat_upd0, applyStat_upd1, applyStat_upd2, applyStat_upd3, applyStat_upd4,
      initStatuses]
    decide
  | true =>
  cases hpt : (runScriptWithTimeout env.ptOutcome 180).success with
  | false =>
    have hl := laterEvents_ptFail env (urlOrDefault story) hnet huok hlog htsm hts hjm hpt
    simp only [execEvents, hl, List.cons_append, List.nil_append, chkWith_cons, chkWith_nil,
      applyStat_setStatus, applyStat_setUrl, applyStat_record, applyStat_valCall,
      applyStat_upd0, applyStat_upd1, applyStat_upd2, applyStat_upd3, applyStat_upd4,
      initStatuses]
    decide
  | true =>
  cases hvv : env.validation_module && env.validator_ok with
  | false =>
    have hl := laterEvents_noVal env (urlOrDefault story) hnet huok hlog htsm hts hjm hpt hvv
    simp only [execEvents, hl, List.cons_append, List.nil_append, chkWith_cons, chkWith_nil,
      applyStat_setStatus, applyStat_setUrl, applyStat_record, applyStat_valCall,
      applyStat_upd0, applyStat_upd1, applyStat_upd2, applyStat_upd3, applyStat_upd4,
      initStatuses]
    decide
  | true =>
  cases hjmx : (jmxFilesOf env).isEmpty with
  | true =>
    have hl := laterEvents_noJmx env (urlOrDefault story) hnet huok hlog htsm hts hjm hpt hvv hjmx
    simp only [execEvents, hl, List.cons_append, List.nil_append, chkWith_cons, chkWith_nil,
      applyStat_setStatus, applyStat_setUrl, applyStat_record, applyStat_valCall,
      applyStat_upd0, applyStat_upd1, applyStat_upd2, applyStat_upd3, applyStat_upd4,
      initStatuses]
    decide
  | false =>
  rcases hvl : valLoop env.validateFile env.genReport (jmxFilesOf env) with ⟨vevs, vres⟩
  have hvalc : ∀ e ∈ vevs, ∃ f, e = Ev.valCall f := by
    have h := valLoop_events env.validateFile env.genReport (jmxFilesOf env)
    rw [hvl] at h
    exact h
  cases vres with
  | error er =>
    have hl := laterEvents_valErr env (urlOrDefault story) vevs er hnet huok hlog htsm hts
      hjm hpt hvv hjmx hvl
    simp only [execEvents, hl]
    simp only [List.cons_append, List.nil_append, chkWith_cons, chkWith_nil,
      applyStat_setStatus, applyStat_setUrl, applyStat_record, applyStat_valCall,
      applyStat_upd0, applyStat_upd1, applyStat_upd2, applyStat_upd3, applyStat_upd4,
      initStatuses]
    rw [chkWith_append_eq, foldl_applyStat_valCalls vevs hvalc,
      chkWith_valCalls okStepA okStepA_refl vevs hvalc
        [.completed, .completed, .completed, .completed, .running] (by decide)]
    simp only [chkWith_cons, chkWith_nil,
      applyStat_setStatus, applyStat_setUrl, applyStat_record, applyStat_valCall,
      applyStat_upd0, applyStat_upd1, applyStat_upd2, applyStat_upd3, applyStat_upd4]
    decide
  | ok vrs =>
    have hl := laterEvents_valOk env (urlOrDefault story) vevs vrs hnet huok hlog htsm hts
      hjm hpt hvv hjmx hvl
    simp only [execEvents, hl]
    simp only [List.cons_append, List.nil_append, chkWith_cons, chkWith_nil,
      applyStat_setStatus, applyStat_setUrl, applyStat_record, applyStat_valCall,
      applyStat_upd0, applyStat_upd1, applyStat_upd2, applyStat_upd3, applyStat_upd4,
      initStatuses]
    rw [chkWith_append_eq, foldl_applyStat_valCalls vevs hvalc,
      chkWith_valCalls okStepA okStepA_refl vevs hvalc
        [.completed, .completed, .completed, .completed, .running] (by decide)]
    simp only [chkWith_cons, chkWith_nil,
      applyStat_setStatus, applyStat_setUrl, applyStat_record, applyStat_valCall,
      applyStat_upd0, applyStat_upd1, applyStat_upd2, applyStat_upd3, applyStat_upd4]
    decide

/-- C2 (amended): at every point of every execution trace, at most one step is
`running` and a running step is the lowest-indexed non-terminal one; once a
step is `completed` or `failed` it never changes again; and each step's status
follows `pending → running → (completed | failed)` except that a step may pass
directly from `pending` to `failed` when its stage's collaborator module or
validator is unavailable.  `invOk` checks the instant invariant and `okStepA`
is the transition relation, checked between every pair of consecutive
states. -/
theorem stepStatusMachine (env : Env) (wfId story : String) (n : Nat) :
    invOk (stepStatuses (applyEvents (mkWorkflow wfId story)
      ((execEvents env story).take n))) = true ∧
    okPairWith okStepA
      (stepStatuses (applyEvents (mkWorkflow wfId story) ((execEvents env story).take n)))
      (stepStatuses (applyEvents (mkWorkflow wfId story)
        ((execEvents env story).take (n + 1)))) = true := by
  have h := chkWith_take okStepA okStepA_refl (execEvents env story) initStatuses
    (execEvents_chk env story) n
  have hinit : stepStatuses (mkWorkflow wfId story) = initStatuses := rfl
  rw [stepStatuses_applyEvents, stepStatuses_applyEvents, hinit]
  exact h

/-- Counterexample to C2 as stated: when the validator collaborator failed to
initialise (while all modules import fine), the run reaches the validation
check and marks step 5 `failed` directly from `pending` without it ever being
`running`, so the strict transition discipline `okStepS` (exactly
`pending → running → terminal`) is violated on this concrete trace. -/
theorem stepStatusMachine_counterexample :
    chkWith okStepS initStatuses (execEvents ⟨true, true, true, true, false, true,
      .exited 0 "" "", .exited 0 "" "", .exited 0 "" "", "", fun _ => false, false, [],
      false, [], fun _ => Except.ok "pass", fun _ => Except.ok ()⟩ "story") = false := by
  decide

/-! ## Claim C6 -/

/-- C6 (amended): an empty (after stripping) submission is rejected with an
error and the registry is unchanged; a non-empty submission that is not a
reset command, while no session workflow is running or initialising, with the
modules available, and containing no URL-shaped substring, receives the
user-facing URL prompt and the registry is unchanged — in particular no
workflow is created in either case. -/
theorem submissionRejection (ma : Bool) (sw : Option String)
    (reg : List (String × WStatus)) (nid raw : String) :
    (pyStrip raw = "" → chatStep ma sw reg nid raw = (.errorEmpty, reg)) ∧
    (pyStrip raw ≠ "" → isResetCommand (pyStrip raw) = false → sessionBusy sw reg = false →
      ma = true → firstUrlScan (pyStrip raw).data = none →
      chatStep ma sw reg nid raw = (.needUrl, reg)) := by
  constructor
  · intro h
    simp [chatStep, h]
  · intro h1 h2 h3 h4 h5
    subst h4
    simp [chatStep, h1, h2, h3, h5]

/-- Witness for (amended) C6: a whitespace-only submission is rejected as
empty, and the URL-less story "Test login" receives the URL prompt; the
registry stays empty both times. -/
theorem submissionRejection_witness :
    chatStep true none [] "wf-new" "   " = (.errorEmpty, []) ∧
    chatStep true none [] "wf-new" "Test login" = (.needUrl, []) :=
  ⟨(submissionRejection true none [] "wf-new" "   ").1 (by decide),
   (submissionRejection true none [] "wf-new" "Test login").2 (by decide) (by decide)
     (by decide) rfl (by decide)⟩

/-- Counterexample to C6 as stated: the submission "reset" contains no
URL-shaped substring, yet the route answers with the reset confirmation, not
with the URL prompt (no workflow is created either way). -/
theorem submissionRejection_counterexample :
    chatStep true none [] "wf-new" "reset" = (ChatResp.resetDone, []) ∧
    firstUrlScan (pyStrip "reset").data = none ∧
    ChatResp.resetDone ≠ ChatResp.needUrl := by
  refine ⟨?_, ?_, ?_⟩ <;> decide

/-- Witness for C3: a story whose first URL starts at position 6, and a story
with no URL at all. -/
theorem urlExtraction_witness :
    (executeWorkflow ⟨true, true, true, true, true, true, .exited 0 "" "", .exited 0 "" "",
        .exited 0 "" "", "", fun _ => false, false, [], false, [],
        fun _ => Except.ok "pass", fun _ => Except.ok ()⟩ "w" "Go to https://a.com now").target_url =
      some "https://a.com" ∧
    (executeWorkflow ⟨true, true, true, true, true, true, .exited 0 "" "", .exited 0 "" "",
        .exited 0 "" "", "", fun _ => false, false, [], false, [],
        fun _ => Except.ok "pass", fun _ => Except.ok ()⟩ "w" "Test login").target_url =
      some "https://example.com" := by
  constructor
  · exact (urlExtraction _ "w" "Go to https://a.com now").1 6 "https://a.com".data
      (by decide) (by decide)
  · exact (urlExtraction _ "w" "Test login").2
      (urlAt_none_of_ball _ (by decide))

/-! ## Claim C4: infrastructure on character lists -/

theorem tripleAt_iff_get : ∀ (s : List Char) (j : Nat),
    tripleAt (s.drop j) = true ↔
      (s.get? j = some '"' ∧ s.get? (j + 1) = some '"' ∧ s.get? (j + 2) = some '"') := by
  intro s
  induction s with
  | nil => intro j; simp [tripleAt, quote3]
  | cons c r ih =>
    intro j
    cases j with
    | zero =>
      rcases r with _ | ⟨d, _ | ⟨e, t⟩⟩ <;> simp [tripleAt, quote3, List.get?, and_assoc]
    | succ j =>
      have h1 : (c :: r).drop (j + 1) = r.drop j := rfl
      rw [h1]
      simpa using ih j

theorem ft_none_iff : ∀ (s : List Char),
    findTriple s = none ↔ ∀ j, tripleAt (s.drop j) = false := by
  intro s
  induction s with
  | nil => simp [findTriple, tripleAt, quote3]
  | cons c r ih =>
    by_cases h : tripleAt (c :: r) = true
    · simp only [findTriple, h, if_true]
      constructor
      · intro hx; cases hx
      · intro hall
        exact absurd h (by simpa using hall 0)
    · have hf : tripleAt (c :: r) = false := by simpa using h
      simp only [findTriple, hf, Bool.false_eq_true, if_false]
      constructor
      · intro hx j
        have hr : findTriple r = none := by
          cases hft : findTriple r with
          | none => rfl
          | some k => rw [hft] at hx; cases hx
        cases j with
        | zero => exact hf
        | succ j => exact (ih.mp hr) j
      · intro hall
        have hr : findTriple r = none := ih.mpr (fun j => hall (j + 1))
        rw [hr]
        rfl

theorem ct_false_iff (s : List Char) :
    containsTriple s = false ↔ ∀ j, tripleAt (s.drop j) = false := by
  rw [← ft_none_iff]
  unfold containsTriple
  cases h : findTriple s <;> simp [h]

theorem ct_false_iff_get (s : List Char) :
    containsTriple s = false ↔
      ∀ j, ¬(s.get? j = some '"' ∧ s.get? (j + 1) = some '"' ∧ s.get? (j + 2) = some '"') := by
  rw [ct_false_iff]
  constructor
  · intro h j hq
    have := (tripleAt_iff_get s j).mpr hq
    rw [h j] at this
    cases this
  · intro h j
    by_cases hb : tripleAt (s.drop j) = true
    · exact absurd ((tripleAt_iff_get s j).mp hb) (h j)
    · simpa using hb

theorem ct_of_append_left {x : List Char} (y : List Char)
    (h : containsTriple (x ++ y) = false) : containsTriple x = false := by
  rw [ct_false_iff_get] at h ⊢
  intro j hq
  rcases hq with ⟨h0, h1, h2⟩
  have hl0 : j < x.length := by
    by_contra hc
    rw [List.get?_eq_none.mpr (by omega)] at h0
    cases h0
  have hl1 : j + 1 < x.length := by
    by_contra hc
    rw [List.get?_eq_none.mpr (by omega)] at h1
    cases h1
  have hl2 : j + 2 < x.length := by
    by_contra hc
    rw [List.get?_eq_none.mpr (by omega)] at h2
    cases h2
  exact h j ⟨by rw [List.get?_append hl0]; exact h0,
    by rw [List.get?_append hl1]; exact h1,
    by rw [List.get?_append hl2]; exact h2⟩

theorem ct_of_append_right (x : List Char) {y : List Char}
    (h : containsTriple (x ++ y) = false) : containsTriple y = false := by
  rw [ct_false_iff_get] at h ⊢
  intro j hq
  rcases hq with ⟨h0, h1, h2⟩
  refine h (x.length + j) ⟨?_, ?_, ?_⟩
  · rw [List.get?_append_right (by omega)]
    simpa using h0
  · rw [List.get?_append_right (by omega)]
    have : x.length + j + 1 - x.length = j + 1 := by omega
    rw [this]
    exact h1
  · rw [List.get?_append_right (by omega)]
    have : x.length + j + 2 - x.length = j + 2 := by omega
    rw [this]
    exact h2

theorem ct_append_safe {x y : List Char} (hx : containsTriple x = false)
    (hy : containsTriple y = false)
    (hb : x.getLast? ≠ some '"' ∨ y.head? ≠ some '"') :
    containsTriple (x ++ y) = false := by
  rw [ct_false_iff_get] at hx hy ⊢
  intro j hq
  rcases hq with ⟨h0, h1, h2⟩
  by_cases hin : j + 2 < x.length
  · exact hx j ⟨by rw [List.get?_append (by omega)] at h0; exact h0,
      by rw [List.get?_append (by omega)] at h1; exact h1,
      by rw [List.get?_append hin] at h2; exact h2⟩
  by_cases hout : x.length ≤ j
  · refine hy (j - x.length) ⟨?_, ?_, ?_⟩
    · rw [List.get?_append_right hout] at h0; exact h0
    · rw [List.get?_append_right (by omega)] at h1
      have : j + 1 - x.length = j - x.length + 1 := by omega
      rw [this] at h1; exact h1
    · rw [List.get?_append_right (by omega)] at h2
      have : j + 2 - x.length = j - x.length + 2 := by omega
      rw [this] at h2; exact h2
  -- the window crosses the boundary: j < |x| ≤ j + 2
  have hxl : x.length - 1 < x.length := by omega
  have hlast : x.getLast? = some '"' := by
    have hone : (x ++ y).get? (x.length - 1) = some '"' := by
      rcases (by omega : x.length - 1 = j ∨ x.length - 1 = j + 1 ∨ x.length - 1 = j + 2)
        with he | he | he <;> rw [he] <;> assumption
    rw [List.get?_append hxl] at hone
    rw [List.getLast?_eq_get? x]
    exact hone
  have hhead : y.head? = some '"' := by
    have hone : (x ++ y).get? x.length = some '"' := by
      rcases (by omega : x.length = j ∨ x.length = j + 1 ∨ x.length = j + 2)
        with he | he | he <;> rw [he] <;> assumption
    rw [List.get?_append_right (by omega), Nat.sub_self] at hone
    rw [← List.get?_zero]
    exact hone
  rcases hb with hb | hb
  · exact hb hlast
  · exact hb hhead

theorem ft_some_spec : ∀ (s : List Char) (k : Nat), findTriple s = some k →
    tripleAt (s.drop k) = true ∧ ∀ j, j < k → tripleAt (s.drop j) = false := by
  intro s
  induction s with
  | nil => intro k h; cases h
  | cons c r ih =>
    intro k h
    by_cases ht : tripleAt (c :: r) = true
    · simp only [findTriple, ht, if_true] at h
      cases h
      exact ⟨ht, fun j hj => absurd hj (Nat.not_lt_zero j)⟩
    · have hf : tripleAt (c :: r) = false := by simpa using ht
      simp only [findTriple, hf, Bool.false_eq_true, if_false] at h
      cases hft : findTriple r with
      | none => rw [hft] at h; cases h
      | some q =>
        rw [hft] at h
        simp only [Option.map_some'] at h
        obtain ⟨h1, h2⟩ := ih q hft
        cases h
        constructor
        · exact h1
        · intro j hj
          cases j with
          | zero => exact hf
          | succ j => exact h2 j (by omega)

theorem ft_of_least : ∀ (s : List Char) (k : Nat), tripleAt (s.drop k) = true →
    (∀ j, j < k → tripleAt (s.drop j) = false) → findTriple s = some k := by
  intro s
  induction s with
  | nil =>
    intro k h _
    rw [List.drop_nil] at h
    simp [tripleAt, quote3] at h
  | cons c r ih =>
    intro k h hb
    cases k with
    | zero =>
      have h0 : tripleAt (c :: r) = true := h
      simp [findTriple, h0]
    | succ k =>
      have h0 : tripleAt (c :: r) = false := hb 0 (Nat.succ_pos k)
      simp only [findTriple, h0, Bool.false_eq_true, if_false]
      have hr : findTriple r = some k := ih k h (fun j hj => hb (j + 1) (by omega))
      rw [hr]
      rfl

theorem openerLen_elim {s : List Char} {o : Nat} (h : openerLen s = some o) :
    ∃ w1 w2, o = 4 + w1 + 1 + w2 + 3 ∧ s.take 4 = tASK ∧
      w1 = wsCount (s.drop 4) ∧ (s.drop (4 + w1)).take 1 = ['='] ∧
      w2 = wsCount (s.drop (4 + w1 + 1)) ∧
      (s.drop (4 + w1 + 1 + w2)).take 3 = quote3 := by
  unfold openerLen at h
  by_cases h4 : s.take 4 = tASK
  · rw [if_pos h4] at h
    simp only [] at h
    by_cases h5 : (s.drop (4 + wsCount (s.drop 4))).take 1 = ['=']
    · rw [if_pos h5] at h
      by_cases h6 : (s.drop (4 + wsCount (s.drop 4) + 1 +
          wsCount (s.drop (4 + wsCount (s.drop 4) + 1)))).take 3 = quote3
      · rw [if_pos h6] at h
        refine ⟨wsCount (s.drop 4), wsCount (s.drop (4 + wsCount (s.drop 4) + 1)),
          ?_, h4, rfl, h5, rfl, h6⟩
        cases h
        rfl
      · rw [if_neg h6] at h; cases h
    · rw [if_neg h5] at h; cases h
  · rw [if_neg h4] at h; cases h

theorem matchLen_some_elim {s : List Char} {n : Nat} (h : matchLen s = some n) :
    ∃ o k, openerLen s = some o ∧ findTriple (s.drop o) = some k ∧ n = o + k + 3 := by
  unfold matchLen at h
  split at h
  next o ho =>
    split at h
    next k hk =>
      cases h
      exact ⟨o, k, ho, hk, rfl⟩
    next => cases h
  next => cases h

theorem matchLen_pos {s : List Char} {n : Nat} (h : matchLen s = some n) : 1 ≤ n := by
  obtain ⟨o, k, _, _, rfl⟩ := matchLen_some_elim h
  omega

theorem matchLen_triple {s : List Char} {n : Nat} (h : matchLen s = some n) :
    containsTriple s = true := by
  obtain ⟨o, k, ho, hf, rfl⟩ := matchLen_some_elim h
  by_contra hc
  have hcf : containsTriple s = false := by simpa using hc
  rw [ct_false_iff] at hcf
  have h1 := (ft_some_spec _ _ hf).1
  rw [List.drop_drop] at h1
  rw [hcf (o + k)] at h1
  cases h1

theorem matchLen_starts {s : List Char} {n : Nat} (h : matchLen s = some n) :
    s.take 4 = tASK := by
  obtain ⟨o, k, ho, _, _⟩ := matchLen_some_elim h
  obtain ⟨w1, w2, _, h4, _⟩ := openerLen_elim ho
  exact h4

theorem matchLen_none_of_no_triple {s : List Char} (h : containsTriple s = false) :
    matchLen s = none := by
  cases hm : matchLen s with
  | none => rfl
  | some n => rw [matchLen_triple hm] at h; cases h

theorem drop_append_le {u : List Char} (y : List Char) {n : Nat} (h : n ≤ u.length) :
    (u ++ y).drop n = u.drop n ++ y := by
  rw [List.drop_append_eq_append_drop]
  have h0 : n - u.length = 0 := by omega
  rw [h0, List.drop_zero]

theorem take_append_congr {y z : List Char} (u : List Char) (n : Nat)
    (h : y.take n = z.take n) : (u ++ y).take n = (u ++ z).take n := by
  rw [List.take_append_eq_append_take, List.take_append_eq_append_take]
  congr 1
  have hy := List.take_take (n - u.length) n y
  have hz := List.take_take (n - u.length) n z
  have hmin : min (n - u.length) n = n - u.length := by omega
  rw [hmin] at hy hz
  rw [← hy, ← hz, h]

theorem take4_eq_tASK {y : List Char} (hy : y.take 4 = tASK) :
    ∃ t, y = 'T' :: 'A' :: 'S' :: 'K' :: t := by
  rcases y with _ | ⟨c0, _ | ⟨c1, _ | ⟨c2, _ | ⟨c3, t⟩⟩⟩⟩
  · simp [tASK] at hy
  · simp [tASK] at hy
  · simp [tASK] at hy
  · simp [tASK] at hy
  · have h : c0 = 'T' ∧ c1 = 'A' ∧ c2 = 'S' ∧ c3 = 'K' := by
      simpa [tASK, List.take] using hy
    obtain ⟨rfl, rfl, rfl, rfl⟩ := h
    exact ⟨t, rfl⟩

theorem take4_cons (a b c d : Char) (l : List Char) :
    (a :: b :: c :: d :: l).take 4 = [a, b, c, d] := rfl

theorem drop4_cons (a b c d : Char) (l : List Char) :
    (a :: b :: c :: d :: l).drop 4 = l := rfl

theorem drop_4k (a b c d : Char) (l : List Char) (k : Nat) :
    (a :: b :: c :: d :: l).drop (4 + k) = l.drop k := by
  rw [Nat.add_comm]
  rfl

theorem openerLen_short_none {u : List Char} (t : List Char)
    (h1 : u.length ≤ 3) (h0 : u ≠ []) :
    openerLen (u ++ 'T' :: 'A' :: 'S' :: 'K' :: t) = none := by
  rcases u with _ | ⟨a, _ | ⟨b, _ | ⟨c, _ | ⟨d, u'⟩⟩⟩⟩
  · exact absurd rfl h0
  · unfold openerLen
    rw [if_neg]
    intro hc
    simp [tASK] at hc
  · unfold openerLen
    rw [if_neg]
    intro hc
    simp [tASK] at hc
  · unfold openerLen
    rw [if_neg]
    intro hc
    simp [tASK] at hc
  · exfalso
    simp [List.length_cons] at h1

/-- The whitespace run never exceeds the list length. -/
theorem wsCount_le_length : ∀ (l : List Char), wsCount l ≤ l.length := by
  intro l
  induction l with
  | nil => simp [wsCount]
  | cons c r ih =>
    show (if isPySpace c then wsCount r + 1 else 0) ≤ r.length + 1
    by_cases h : isPySpace c
    · rw [if_pos h]; omega
    · rw [if_neg h]; omega

/-- Appending after a non-space head does not change the leading whitespace run. -/
theorem wsCount_append_nonspace (c : Char) (hc : isPySpace c = false) :
    ∀ (a y : List Char), wsCount (a ++ c :: y) = wsCount a := by
  intro a
  induction a with
  | nil => intro y; simp [wsCount, hc]
  | cons d a' ih =>
    intro y
    show (if isPySpace d then wsCount (a' ++ c :: y) + 1 else 0)
       = (if isPySpace d then wsCount a' + 1 else 0)
    rw [ih y]

/-- A successful opener parse fits inside the parsed string. -/
theorem openerLen_le {u : List Char} {o : Nat} (h : openerLen u = some o) :
    o ≤ u.length := by
  obtain ⟨w1, w2, ho, _, _, _, _, hq⟩ := openerLen_elim h
  have h3 : ((u.drop (4 + w1 + 1 + w2)).take 3).length = 3 := by rw [hq]; rfl
  rw [List.length_take, List.length_drop] at h3
  omega

/-- The opener parse of a string shorter than four characters fails. -/
theorem openerLen_short_self {u : List Char} (h1 : u.length ≤ 3) :
    openerLen u = none := by
  unfold openerLen
  rw [if_neg]
  intro hc
  have hl := congrArg List.length hc
  rw [List.length_take] at hl
  have h4 : (tASK).length = 4 := rfl
  omega

/-- Appending a `TASK`-headed continuation to a nonempty prefix does not change the
opener parse: the parse either fails or completes inside the prefix. -/
theorem openerLen_stable (u y : List Char) (hu : u ≠ []) (hy : y.take 4 = tASK) :
    openerLen (u ++ y) = openerLen u := by
  obtain ⟨ty, rfl⟩ := take4_eq_tASK hy
  by_cases h4 : 4 ≤ u.length
  case neg =>
    rw [openerLen_short_none ty (by omega) hu, openerLen_short_self (by omega)]
  case pos =>
    rcases u with _ | ⟨a, _ | ⟨b, _ | ⟨c, _ | ⟨d, u'⟩⟩⟩⟩
    · exact absurd rfl hu
    · exfalso; simp at h4
    · exfalso; simp at h4
    · exfalso; simp at h4
    simp only [List.cons_append]
    unfold openerLen
    simp only []
    rw [take4_cons, take4_cons]
    by_cases habcd : [a, b, c, d] = tASK
    case neg =>
      rw [if_neg habcd, if_neg habcd]
    case pos =>
      rw [if_pos habcd, if_pos habcd, drop4_cons, drop4_cons]
      rw [wsCount_append_nonspace 'T' (by decide) u' ('A' :: 'S' :: 'K' :: ty)]
      set w1 := wsCount u' with hw1
      rw [drop_4k, drop_4k]
      have hwle : w1 ≤ u'.length := wsCount_le_length u'
      rw [drop_append_le _ hwle]
      cases hsplit : u'.drop w1 with
      | nil =>
        have e1 : (([] : List Char) ++ 'T' :: 'A' :: 'S' :: 'K' :: ty).take 1 = ['T'] := rfl
        have e2 : (([] : List Char)).take 1 = [] := rfl
        simp only [e1, e2]
        have h1n : ¬ (['T'] = ['=']) := by decide
        have h2n : ¬ (([] : List Char) = ['=']) := by decide
        rw [if_neg h1n, if_neg h2n]
      | cons e x' =>
        have e1 : ((e :: x') ++ 'T' :: 'A' :: 'S' :: 'K' :: ty).take 1 = [e] := rfl
        have e2 : ((e :: x')).take 1 = [e] := rfl
        simp only [e1, e2]
        by_cases he : [e] = ['=']
        case neg =>
          rw [if_neg he, if_neg he]
        case pos =>
          rw [if_pos he, if_pos he]
          have harith1 : 4 + w1 + 1 = 4 + (w1 + 1) := by omega
          rw [harith1, drop_4k, drop_4k]
          have hd1 : u'.drop (w1 + 1) = x' := by
            have hdd := List.drop_drop 1 w1 u'
            rw [hsplit] at hdd
            exact hdd.symm
          have hx'len : u'.length = w1 + 1 + x'.length := by
            have hls := congrArg List.length hsplit
            rw [List.length_drop] at hls
            simp at hls
            omega
          have h1le : w1 + 1 ≤ u'.length := by omega
          rw [drop_append_le _ h1le, hd1]
          rw [wsCount_append_nonspace 'T' (by decide) x' ('A' :: 'S' :: 'K' :: ty)]
          set w2 := wsCount x' with hw2
          have harith2 : 4 + (w1 + 1) + w2 = 4 + (w1 + 1 + w2) := by omega
          rw [harith2, drop_4k, drop_4k]
          have hd2 : u'.drop (w1 + 1 + w2) = x'.drop w2 := by
            have hdd := List.drop_drop w2 (w1 + 1) u'
            rw [hd1] at hdd
            exact hdd.symm
          have hw2le : w2 ≤ x'.length := wsCount_le_length x'
          have h2le : w1 + 1 + w2 ≤ u'.length := by omega
          rw [drop_append_le _ h2le, hd2]
          cases hsplit2 : x'.drop w2 with
          | nil =>
            have e3 : (([] : List Char) ++ 'T' :: 'A' :: 'S' :: 'K' :: ty).take 3
                = ['T', 'A', 'S'] := rfl
            have e4 : (([] : List Char)).take 3 = [] := rfl
            simp only [e3, e4]
            have h1n : ¬ (['T', 'A', 'S'] = quote3) := by decide
            have h2n : ¬ (([] : List Char) = quote3) := by decide
            rw [if_neg h1n, if_neg h2n]
          | cons q1 r1 =>
            cases r1 with
            | nil =>
              have e3 : ([q1] ++ 'T' :: 'A' :: 'S' :: 'K' :: ty).take 3
                  = [q1, 'T', 'A'] := rfl
              have e4 : ([q1] : List Char).take 3 = [q1] := rfl
              simp only [e3, e4]
              have h1n : ¬ ([q1, 'T', 'A'] = quote3) := by
                intro hq
                have hq' : [q1, 'T', 'A'] = ['"', '"', '"'] := hq
                injection hq' with a1 b1
                injection b1 with a2 b2
                exact absurd a2 (by decide)
              have h2n : ¬ ([q1] = quote3) := by
                intro hq
                have hq' : [q1] = ['"', '"', '"'] := hq
                injection hq' with a1 b1
                exact absurd b1 (by decide)
              rw [if_neg h1n, if_neg h2n]
            | cons q2 r2 =>
              cases r2 with
              | nil =>
                have e3 : ([q1, q2] ++ 'T' :: 'A' :: 'S' :: 'K' :: ty).take 3
                    = [q1, q2, 'T'] := rfl
                have e4 : ([q1, q2] : List Char).take 3 = [q1, q2] := rfl
                simp only [e3, e4]
                have h1n : ¬ ([q1, q2, 'T'] = quote3) := by
                  intro hq
                  have hq' : [q1, q2, 'T'] = ['"', '"', '"'] := hq
                  injection hq' with a1 b1
                  injection b1 with a2 b2
                  injection b2 with a3 b3
                  exact absurd a3 (by decide)
                have h2n : ¬ ([q1, q2] = quote3) := by
                  intro hq
                  have hq' : [q1, q2] = ['"', '"', '"'] := hq
                  injection hq' with a1 b1
                  injection b1 with a2 b2
                  exact absurd b2 (by decide)
                rw [if_neg h1n, if_neg h2n]
              | cons q3 r3 =>
                have e3 : ((q1 :: q2 :: q3 :: r3) ++ 'T' :: 'A' :: 'S' :: 'K' :: ty).take 3
                    = [q1, q2, q3] := rfl
                have e4 : ((q1 :: q2 :: q3 :: r3) : List Char).take 3 = [q1, q2, q3] := rfl
                simp only [e3, e4]

/-- Taking within the left part of an append. -/
theorem take_append_le {u : List Char} (y : List Char) {n : Nat} (h : n ≤ u.length) :
    (u ++ y).take n = u.take n := by
  rw [List.take_append_eq_append_take]
  have h0 : n - u.length = 0 := by omega
  rw [h0, List.take_zero, List.append_nil]

/-- Taking exactly the left part of an append. -/
theorem take_append_self (u y : List Char) : (u ++ y).take u.length = u := by
  rw [take_append_le y (Nat.le_refl _), List.take_length]

/-- Dropping exactly the left part of an append. -/
theorem drop_append_self (u y : List Char) : (u ++ y).drop u.length = y := by
  rw [drop_append_le y (Nat.le_refl _), List.drop_length, List.nil_append]

/-- The empty string has no task-pattern match. -/
theorem matchLen_nil : matchLen [] = none := rfl

/-- A position whose opener parses but whose whole pattern fails has no closing
delimiter after the opener. -/
theorem matchLen_none_elim {s : List Char} {o : Nat} (hn : matchLen s = none)
    (ho : openerLen s = some o) : findTriple (s.drop o) = none := by
  unfold matchLen at hn
  split at hn
  next o2 ho2 =>
    rw [ho2] at ho
    injection ho with ho3
    subst ho3
    split at hn
    next k hk => cases hn
    next hk => exact hk
  next ho2 => rw [ho2] at ho; cases ho

/-- An opener failure makes the whole pattern fail. -/
theorem matchLen_none_of_opener_none {s : List Char} (h : openerLen s = none) :
    matchLen s = none := by
  unfold matchLen
  rw [h]

/-- A string with a match is nonempty. -/
theorem matchLen_some_ne_nil {s : List Char} {n : Nat} (h : matchLen s = some n) :
    s ≠ [] := by
  intro he
  rw [he, matchLen_nil] at h
  cases h

/-- Triple-freeness passes to infixes. -/
theorem ct_infix {a t b : List Char} (h : containsTriple (a ++ t ++ b) = false) :
    containsTriple t = false := by
  rw [List.append_assoc] at h
  exact ct_of_append_left b (ct_of_append_right a h)

/-- A successful URL probe returns the non-whitespace run at the head. -/
theorem urlAt_some_elim {s u : List Char} (h : urlAt s = some u) :
    u = s.takeWhile (fun c => !isPySpace c) := by
  unfold urlAt at h
  simp only [] at h
  split at h
  · cases h; rfl
  · split at h
    · cases h; rfl
    · cases h

/-- The first URL found by the scan is an infix of the scanned string. -/
theorem firstUrlScan_infix : ∀ (s u : List Char), firstUrlScan s = some u →
    ∃ x y, s = x ++ u ++ y := by
  intro s
  induction s with
  | nil => intro u h; cases h
  | cons c r ih =>
    intro u h
    unfold firstUrlScan at h
    split at h
    next v hv =>
      cases h
      refine ⟨[], (c :: r).dropWhile (fun c => !isPySpace c), ?_⟩
      rw [List.nil_append, urlAt_some_elim hv, List.takeWhile_append_dropWhile]
    next =>
      obtain ⟨x, y, hxy⟩ := ih u h
      exact ⟨c :: x, y, by rw [List.cons_append, List.cons_append, ← hxy]⟩

/-- The URL inserted into the task block contains no triple quote when the
story contains none. -/
theorem ct_url {story : List Char} (hst : containsTriple story = false) :
    containsTriple (urlOrDefaultL story) = false := by
  unfold urlOrDefaultL
  cases hf : firstUrlScan story with
  | none => decide
  | some u =>
    obtain ⟨x, y, hxy⟩ := firstUrlScan_infix story u hf
    rw [hxy] at hst
    exact ct_infix hst

/-- `newTask` splits as opener, body, and closing delimiter. -/
theorem newTask_decomp (story : List Char) :
    newTask story = "TASK = \"\"\"".data ++ bodyL story ++ quote3 := by
  unfold newTask bodyL
  have hA : ("TASK = \"\"\"\nAs a user,\nI want to go to ".data : List Char)
      = "TASK = \"\"\"".data ++ "\nAs a user,\nI want to go to ".data := by decide
  have hC : ("\nAnd verify the task is completed.\n\"\"\"".data : List Char)
      = "\nAnd verify the task is completed.\n".data ++ quote3 := by decide
  rw [hA, hC]
  simp [List.append_assoc]

/-- The body always ends in a newline. -/
theorem bodyL_getLast (story : List Char) : (bodyL story).getLast? = some '\n' := by
  unfold bodyL
  rw [List.getLast?_append_of_ne_nil _ (by decide)]
  decide

/-- The body contains no triple quote when the story contains none. -/
theorem ct_bodyL {story : List Char} (hst : containsTriple story = false) :
    containsTriple (bodyL story) = false := by
  unfold bodyL
  have h1 : containsTriple
      ("\nAs a user,\nI want to go to ".data ++ urlOrDefaultL story) = false :=
    ct_append_safe (by decide) (ct_url hst) (Or.inl (by decide))
  have h2 : containsTriple
      (("\nAs a user,\nI want to go to ".data ++ urlOrDefaultL story) ++ ",\n".data)
      = false :=
    ct_append_safe h1 (by decide) (Or.inr (by decide))
  have h3 : containsTriple
      ((("\nAs a user,\nI want to go to ".data ++ urlOrDefaultL story) ++ ",\n".data)
        ++ story) = false :=
    ct_append_safe h2 hst
      (Or.inl (by rw [List.getLast?_append_of_ne_nil _ (by decide)]; decide))
  exact ct_append_safe h3 (by decide) (Or.inr (by decide))

/-- The opener of the replacement block parses with length 10 in front of any
continuation. -/
theorem openerLen_opener (w : List Char) :
    openerLen ("TASK = \"\"\"".data ++ w) = some 10 := rfl

/-- In a triple-free string ending in a newline followed by `\"\"\"`, the first
triple quote sits exactly at the junction. -/
theorem ft_exact {x : List Char} (hx : containsTriple x = false)
    (hl : x.getLast? = some '\n') (v : List Char) :
    findTriple (x ++ '"' :: '"' :: '"' :: v) = some x.length := by
  apply ft_of_least
  · rw [drop_append_self]
    rfl
  · intro j hj
    by_contra hc
    have ht : tripleAt ((x ++ '"' :: '"' :: '"' :: v).drop j) = true := by simpa using hc
    rw [tripleAt_iff_get] at ht
    obtain ⟨h0, h1, h2⟩ := ht
    have hg : x.get? (x.length - 1) = some '\n' := by
      rw [List.getLast?_eq_get?] at hl
      exact hl
    by_cases hin : j + 2 < x.length
    · rw [ct_false_iff_get] at hx
      refine hx j ⟨?_, ?_, ?_⟩
      · rw [← List.get?_append (show j < x.length by omega)]; exact h0
      · rw [← List.get?_append (show j + 1 < x.length by omega)]; exact h1
      · rw [← List.get?_append hin]; exact h2
    · have hone : (x ++ '"' :: '"' :: '"' :: v).get? (x.length - 1) = some '\n' := by
        rw [List.get?_append (show x.length - 1 < x.length by omega)]
        exact hg
      have hquote : (x ++ '"' :: '"' :: '"' :: v).get? (x.length - 1) = some '"' := by
        rcases (show x.length - 1 = j ∨ x.length - 1 = j + 1 ∨ x.length - 1 = j + 2
            by omega) with he | he | he <;> rw [he] <;> assumption
      rw [hone] at hquote
      injection hquote with hch
      exact absurd hch (by decide)

/-- The task pattern matches the whole replacement block, and nothing more, at
the head of any continuation (the story being triple-free). -/
theorem matchLen_newTask {story : List Char} (hst : containsTriple story = false)
    (v : List Char) :
    matchLen (newTask story ++ v) = some (newTask story).length := by
  have hd := newTask_decomp story
  have h10 : ("TASK = \"\"\"".data : List Char).length = 10 := by decide
  have h3q : (quote3 : List Char).length = 3 := by decide
  rw [hd]
  have hassoc : (("TASK = \"\"\"".data ++ bodyL story ++ quote3) ++ v)
      = "TASK = \"\"\"".data ++ (bodyL story ++ ('"' :: '"' :: '"' :: v)) := by
    simp only [List.append_assoc]
    rfl
  rw [hassoc]
  unfold matchLen
  rw [openerLen_opener]
  simp only []
  have hdrop : ("TASK = \"\"\"".data ++ (bodyL story ++ ('"' :: '"' :: '"' :: v))).drop 10
      = bodyL story ++ ('"' :: '"' :: '"' :: v) := by
    rw [← h10, drop_append_self]
  rw [hdrop, ft_exact (ct_bodyL hst) (bodyL_getLast story) v]
  simp only []
  rw [List.length_append, List.length_append, h10, h3q]

/-- Unfolding equation for the scanner at skip distance zero. -/
theorem subAux_cons0 (T : List Char) (c : Char) (r : List Char) :
    subAux T (c :: r) 0 =
      match matchLen (c :: r) with
      | some n => T ++ subAux T r (n - 1)
      | none => c :: subAux T r 0 := rfl

/-- Scanning with a pending skip of k characters is scanning the k-dropped
string. -/
theorem subAux_skip (T : List Char) : ∀ (s : List Char) (k : Nat),
    subAux T s k = subAux T (s.drop k) 0 := by
  intro s
  induction s with
  | nil =>
    intro k
    rw [List.drop_nil]
    cases k with
    | zero => rfl
    | succ k => rfl
  | cons c r ih =>
    intro k
    cases k with
    | zero => rfl
    | succ k =>
      show subAux T r k = subAux T ((c :: r).drop (k + 1)) 0
      rw [ih k]
      rfl

/-- When no position matches, the scan copies the string unchanged. -/
theorem subAux_nofire (T : List Char) : ∀ (s : List Char),
    (∀ i, matchLen (s.drop i) = none) → subAux T s 0 = s := by
  intro s
  induction s with
  | nil => intro _; rfl
  | cons c r ih =>
    intro h
    have h0 : matchLen (c :: r) = none := h 0
    rw [subAux_cons0, h0]
    simp only []
    rw [ih (fun i => h (i + 1))]

/-- A string with a match somewhere has a leftmost match. -/
theorem hasMatch_first : ∀ (s : List Char), hasMatch s = true →
    ∃ m n, (∀ i, i < m → matchLen (s.drop i) = none) ∧
      matchLen (s.drop m) = some n := by
  intro s
  induction s with
  | nil => intro h; cases h
  | cons c r ih =>
    intro h
    cases hm : matchLen (c :: r) with
    | some n => exact ⟨0, n, fun i hi => absurd hi (Nat.not_lt_zero i), hm⟩
    | none =>
      have hr : hasMatch r = true := by
        have h2 : ((matchLen (c :: r)).isSome || hasMatch r) = true := h
        rw [hm] at h2
        simpa using h2
      obtain ⟨m, n, hpre, hm2⟩ := ih hr
      refine ⟨m + 1, n, ?_, hm2⟩
      intro i hi
      cases i with
      | zero => exact hm
      | succ i => exact hpre i (by omega)

/-- A string with no match anywhere is left unchanged by the substitution. -/
theorem pySub_nofire {T s : List Char} (h : hasMatch s = false) : pySub T s = s := by
  have hall : ∀ i, matchLen (s.drop i) = none := by
    intro i
    induction s generalizing i with
    | nil =>
      rw [List.drop_nil]
      exact matchLen_nil
    | cons c r ih =>
      have h2 : ((matchLen (c :: r)).isSome || hasMatch r) = false := h
      rw [Bool.or_eq_false_iff] at h2
      obtain ⟨ha, hb⟩ := h2
      cases i with
      | zero =>
        cases hm : matchLen (c :: r) with
        | none => exact hm
        | some n => rw [hm] at ha; simp at ha
      | succ i => exact ih hb i
  exact subAux_nofire T s hall

/-- Decomposition of the substitution at the leftmost match: copy the prefix,
emit the replacement, and continue after the matched text. -/
theorem pySub_dec (T : List Char) : ∀ (m : Nat) (c : List Char) (n : Nat),
    (∀ i, i < m → matchLen (c.drop i) = none) → matchLen (c.drop m) = some n →
    pySub T c = c.take m ++ T ++ pySub T (c.drop (m + n)) := by
  intro m
  induction m with
  | zero =>
    intro c n _ hm
    have h0 : matchLen c = some n := hm
    cases c with
    | nil => rw [matchLen_nil] at h0; cases h0
    | cons d rest =>
      show subAux T (d :: rest) 0
          = (d :: rest).take 0 ++ T ++ pySub T ((d :: rest).drop (0 + n))
      rw [subAux_cons0, h0]
      simp only [List.take_zero, List.nil_append]
      rw [subAux_skip]
      have hn1 : 1 ≤ n := matchLen_pos h0
      have hdn : (d :: rest).drop (0 + n) = rest.drop (n - 1) := by
        have he : 0 + n = (n - 1) + 1 := by omega
        rw [he]
        rfl
      rw [hdn]
      rfl
  | succ m ih =>
    intro c n hpre hm
    cases c with
    | nil => rw [List.drop_nil, matchLen_nil] at hm; cases hm
    | cons d rest =>
      have h0 : matchLen (d :: rest) = none := hpre 0 (Nat.succ_pos m)
      show subAux T (d :: rest) 0
          = (d :: rest).take (m + 1) ++ T ++ pySub T ((d :: rest).drop (m + 1 + n))
      rw [subAux_cons0, h0]
      simp only []
      have ih2 := ih rest n (fun i hi => hpre (i + 1) (by omega)) hm
      show d :: pySub T rest
          = (d :: rest).take (m + 1) ++ T ++ pySub T ((d :: rest).drop (m + 1 + n))
      rw [ih2]
      have ht : (d :: rest).take (m + 1) = d :: rest.take m := rfl
      have hd : (d :: rest).drop (m + 1 + n) = rest.drop (m + n) := by
        have he : m + 1 + n = (m + n) + 1 := by omega
        rw [he]
        rfl
      rw [ht, hd]
      simp [List.cons_append, List.append_assoc]

/-- Residue safety: replacing the leftmost match by any `TASK`-headed block
leaves every position strictly before it without a match, because such a
position would otherwise have matched in the original string first. -/
theorem prefix_nofire {c : List Char} {m n : Nat}
    (hpre : ∀ i, i < m → matchLen (c.drop i) = none)
    (hm : matchLen (c.drop m) = some n)
    (Y : List Char) (hY : Y.take 4 = tASK) :
    ∀ i, i < m → matchLen ((c.take m).drop i ++ Y) = none := by
  intro i hi
  have hmlt : m < c.length := by
    have hne := matchLen_some_ne_nil hm
    by_contra hcon
    rw [List.drop_eq_nil_of_le (by omega)] at hne
    exact hne rfl
  have hulen : ((c.take m).drop i).length = m - i := by
    rw [List.length_drop, List.length_take]
    omega
  have hune : (c.take m).drop i ≠ [] := by
    intro he
    rw [he] at hulen
    simp at hulen
    omega
  have hsplit : c.drop i = (c.take m).drop i ++ c.drop m := by
    conv_lhs => rw [← List.take_append_drop m c]
    rw [drop_append_le _ (by rw [List.length_take]; omega)]
  have hm4 : (c.drop m).take 4 = tASK := matchLen_starts hm
  suffices hop : openerLen ((c.take m).drop i) = none by
    apply matchLen_none_of_opener_none
    rw [openerLen_stable _ Y hune hY]
    exact hop
  cases hsome : openerLen ((c.take m).drop i) with
  | none => rfl
  | some o =>
    exfalso
    have hole : o ≤ ((c.take m).drop i).length := openerLen_le hsome
    have hio : i + o ≤ m := by rw [hulen] at hole; omega
    have hoc : openerLen (c.drop i) = some o := by
      rw [hsplit, openerLen_stable _ _ hune hm4]
      exact hsome
    have hft : findTriple ((c.drop i).drop o) = none :=
      matchLen_none_elim (hpre i hi) hoc
    rw [ft_none_iff] at hft
    obtain ⟨om, k, hom, hfk, _⟩ := matchLen_some_elim hm
    obtain ⟨htrip, _⟩ := ft_some_spec _ _ hfk
    rw [List.drop_drop, List.drop_drop] at htrip
    have hj := hft ((m + om + k) - (i + o))
    rw [List.drop_drop, List.drop_drop] at hj
    have harith : i + (o + (m + om + k - (i + o))) = m + (om + k) := by omega
    rw [harith] at hj
    rw [htrip] at hj
    cases hj

/-- A match at any position makes the search succeed. -/
theorem hasMatch_of_pos : ∀ (s : List Char) (i n : Nat),
    matchLen (s.drop i) = some n → hasMatch s = true := by
  intro s
  induction s with
  | nil =>
    intro i n h
    rw [List.drop_nil, matchLen_nil] at h
    cases h
  | cons c r ih =>
    intro i n h
    show ((matchLen (c :: r)).isSome || hasMatch r) = true
    cases i with
    | zero =>
      have h0 : matchLen (c :: r) = some n := h
      rw [h0]
      rfl
    | succ i =>
      rw [ih i n h]
      simp

/-- The substituted string still contains a match (namely the block itself). -/
theorem hasMatch_pySub {story c : List Char} (hst : containsTriple story = false)
    (h : hasMatch c = true) : hasMatch (pySub (newTask story) c) = true := by
  obtain ⟨m, n, hpre, hm⟩ := hasMatch_first c h
  have hmlt : m < c.length := by
    have hne := matchLen_some_ne_nil hm
    by_contra hcon
    rw [List.drop_eq_nil_of_le (by omega)] at hne
    exact hne rfl
  have htm : (c.take m).length = m := by rw [List.length_take]; omega
  rw [pySub_dec (newTask story) m c n hpre hm, List.append_assoc]
  have hdm : (c.take m ++ (newTask story ++ pySub (newTask story) (c.drop (m + n)))).drop m
      = newTask story ++ pySub (newTask story) (c.drop (m + n)) := by
    rw [drop_append_le _ (by rw [htm])]
    rw [List.drop_eq_nil_of_le (by rw [htm]), List.nil_append]
  exact hasMatch_of_pos _ m (newTask story).length
    (by rw [hdm]; exact matchLen_newTask hst _)

/-- Idempotence of the replace pass (strong induction on the content length):
replacing every task block by the new block, then doing it again, changes
nothing the second time. -/
theorem pySub_idem {story : List Char} (hst : containsTriple story = false) :
    ∀ (N : Nat) (c : List Char), c.length ≤ N →
      pySub (newTask story) (pySub (newTask story) c) = pySub (newTask story) c := by
  intro N
  induction N with
  | zero =>
    intro c hc
    have hcn : c = [] := by
      cases c with
      | nil => rfl
      | cons d r => simp at hc
    subst hcn
    rfl
  | succ N ih =>
    intro c hc
    cases hhm : hasMatch c with
    | false => rw [pySub_nofire hhm, pySub_nofire hhm]
    | true =>
      obtain ⟨m, n, hpre, hm⟩ := hasMatch_first c hhm
      have hmlt : m < c.length := by
        have hne := matchLen_some_ne_nil hm
        by_contra hcon
        rw [List.drop_eq_nil_of_le (by omega)] at hne
        exact hne rfl
      have hn1 : 1 ≤ n := matchLen_pos hm
      have htm : (c.take m).length = m := by rw [List.length_take]; omega
      rw [pySub_dec (newTask story) m c n hpre hm, List.append_assoc]
      have hdm : (c.take m ++ (newTask story ++ pySub (newTask story) (c.drop (m + n)))).drop m
          = newTask story ++ pySub (newTask story) (c.drop (m + n)) := by
        rw [drop_append_le _ (by rw [htm])]
        rw [List.drop_eq_nil_of_le (by rw [htm]), List.nil_append]
      have hY : (newTask story ++ pySub (newTask story) (c.drop (m + n))).take 4 = tASK := by
        rw [newTask_decomp story, List.append_assoc, List.append_assoc]
        rw [take_append_le _ (by decide)]
        decide
      have hprefix : ∀ i, i < m →
          matchLen ((c.take m ++ (newTask story ++ pySub (newTask story)
            (c.drop (m + n)))).drop i) = none := by
        intro i hi
        rw [drop_append_le _ (by rw [htm]; omega)]
        exact prefix_nofire hpre hm _ hY i hi
      have hfire : matchLen ((c.take m ++ (newTask story ++ pySub (newTask story)
          (c.drop (m + n)))).drop m) = some (newTask story).length := by
        rw [hdm]
        exact matchLen_newTask hst _
      rw [pySub_dec (newTask story) m _ (newTask story).length hprefix hfire]
      have htake : (c.take m ++ (newTask story ++ pySub (newTask story)
          (c.drop (m + n)))).take m = c.take m := by
        rw [take_append_le _ (by rw [htm])]
        rw [List.take_take, Nat.min_self]
      have hdropS : (c.take m ++ (newTask story ++ pySub (newTask story)
          (c.drop (m + n)))).drop (m + (newTask story).length)
          = pySub (newTask story) (c.drop (m + n)) := by
        rw [← List.append_assoc]
        have hlen2 : (c.take m ++ newTask story).length
            = m + (newTask story).length := by
          rw [List.length_append, htm]
        rw [← hlen2, drop_append_self]
      rw [htake, hdropS]
      have hXfix := ih (c.drop (m + n)) (by rw [List.length_drop]; omega)
      rw [hXfix, List.append_assoc]

/-- C4 (amended): writer idempotence on the replace path.  When the current
log-file content already contains a task block (so `update_task_in_log_file`
takes the `re.sub` branch) and the user story contains no triple quote,
running the writer twice with the same story leaves the content identical to
running it once.  (On the insert branch idempotence can fail; see the
counterexample.) -/
theorem taskWriterIdempotence (story content : String)
    (hst : containsTriple story.data = false)
    (hcm : hasMatch content.data = true) :
    updateTaskStr story (updateTaskStr story content) = updateTaskStr story content := by
  have h1 : updateTaskL story.data content.data
      = pySub (newTask story.data) content.data := by
    unfold updateTaskL
    simp only []
    rw [if_pos hcm]
  have h2 : hasMatch (pySub (newTask story.data) content.data) = true :=
    hasMatch_pySub hst hcm
  have h3 : updateTaskL story.data (pySub (newTask story.data) content.data)
      = pySub (newTask story.data) (pySub (newTask story.data) content.data) := by
    unfold updateTaskL
    simp only []
    rw [if_pos h2]
  unfold updateTaskStr
  rw [show (String.mk (updateTaskL story.data content.data)).data
      = updateTaskL story.data content.data from rfl]
  rw [h1, h3, pySub_idem hst content.data.length content.data (Nat.le_refl _)]

/-- Concrete instance of C4: a story without triple quotes and a content that
already holds a task block satisfy the hypotheses, and the writer is
idempotent there. -/
theorem taskWriterIdempotence_witness :
    containsTriple ("hello story".data) = false ∧
    hasMatch ("TASK = \"\"\"old\"\"\"".data) = true ∧
    updateTaskStr "hello story" (updateTaskStr "hello story" "TASK = \"\"\"old\"\"\"")
      = updateTaskStr "hello story" "TASK = \"\"\"old\"\"\"" :=
  ⟨by decide, by decide,
    taskWriterIdempotence "hello story" "TASK = \"\"\"old\"\"\"" (by decide) (by decide)⟩

/-- Counterexample to the unrestricted claim: on content with an unterminated
task opener the first run takes the insert branch; the inserted block's
delimiter then closes the old opener, so the second run rewrites the file
differently. -/
theorem taskWriterIdempotence_counterexample :
    updateTaskStr "hello" (updateTaskStr "hello" "TASK = \"\"\"x\nimport os")
      ≠ updateTaskStr "hello" "TASK = \"\"\"x\nimport os" := by decide

end Workpipe
